import Mathlib

/-!
Verification development for the memory-management core excerpted from the
hermes repository: the `WeakRefSlot` tagged-pointer slot, the `GCBase::IDTracker`
address-to-identity map (both from `include/hermes/VM/GCBase.h`), and the
`SegmentedArray` growable container (`lib/VM/SegmentedArray.cpp`).

Machine addresses and `HermesValue` payloads are modelled as natural numbers;
the C++ maps and raw storage are modelled as association lists and functions.
-/

namespace WRS

/-- The tagged-pointer implementation of `WeakRefSlot` (GCBase.h, the `#if 1`
branch): a single `char *tagged_` whose low two bits encode the state.
We model the pointer value as a natural number. -/
structure WeakRefSlot where
  tagged : Nat
deriving DecidableEq, Repr

/-- `State::Unmarked == 0`. -/
def Unmarked : Nat := 0

/-- `State::Marked == 1`. -/
def Marked : Nat := 1

/-- `State::Free == 2`. -/
def Free : Nat := 2

/-- `state()`: `static_cast<State>(reinterpret_cast<uintptr_t>(tagged_) & 3)`. -/
def WeakRefSlot.state (s : WeakRefSlot) : Nat := s.tagged % 4

/-- `hasPointer()`: `reinterpret_cast<uintptr_t>(tagged_) > Free`. -/
def WeakRefSlot.hasPointer (s : WeakRefSlot) : Bool := decide (2 < s.tagged)

/-- `hasValue()` forwards to `hasPointer()`. -/
def WeakRefSlot.hasValue (s : WeakRefSlot) : Bool := s.hasPointer

/-- `value()`: `HermesValue::encodeObjectValue(tagged_)` (meaningful in the
Unmarked state, where no untagging is needed). -/
def WeakRefSlot.value (s : WeakRefSlot) : Nat := s.tagged

/-- `getPointer()`: `tagged_ - state()`. -/
def WeakRefSlot.getPointer (s : WeakRefSlot) : Nat := s.tagged - s.state

/-- `setPointer(newPtr)`: `tagged_ = (char *)newPtr + (ptrdiff_t)state()`. -/
def WeakRefSlot.setPointer (s : WeakRefSlot) (newPtr : Nat) : WeakRefSlot :=
  ⟨newPtr + s.state⟩

/-- `clearPointer()`: `tagged_ = (char *)state()`. -/
def WeakRefSlot.clearPointer (s : WeakRefSlot) : WeakRefSlot := ⟨s.state⟩

/-- `mark()`: `tagged_ += Marked` (precondition: state is Unmarked). -/
def WeakRefSlot.mark (s : WeakRefSlot) : WeakRefSlot := ⟨s.tagged + 1⟩

/-- `unmark()`: `tagged_ -= Marked` (precondition: state is Marked). -/
def WeakRefSlot.unmark (s : WeakRefSlot) : WeakRefSlot := ⟨s.tagged - 1⟩

/-- `free(nextFree)`: `tagged_ = (char *)nextFree; tagged_ += Free`
(precondition: state is Unmarked). -/
def WeakRefSlot.free (_s : WeakRefSlot) (nextFreeSlot : Nat) : WeakRefSlot :=
  ⟨nextFreeSlot + 2⟩

/-- `nextFree()`: `(WeakRefSlot *)(tagged_ - Free)` (precondition: state is Free). -/
def WeakRefSlot.nextFree (s : WeakRefSlot) : Nat := s.tagged - 2

/-- `reset(v)`: `tagged_ = (char *)v.getObject()`. -/
def WeakRefSlot.reset (v : Nat) : WeakRefSlot := ⟨v⟩

end WRS

namespace IDT

/-- `GCBase::IDTracker` state: the two monotone counters and the shared
address-to-ID map (`llvm::DenseMap<const void *, NodeID> objectIDMap_`,
used for both JS-heap and native IDs). Addresses and IDs are `Nat`. -/
structure IDTracker where
  nextID : Nat
  nextNativeID : Nat
  objectIDMap : List (Nat × Nat)
deriving DecidableEq, Repr

/-- `kIDStep = 2`. -/
def kIDStep : Nat := 2

/-- `std::numeric_limits<HeapSnapshot::NodeID>::max()` for a 64-bit node ID. -/
def UINT64MAX : Nat := 2 ^ 64 - 1

/-- Initial tracker state.  `nextID_` starts at
`FirstNonReservedID + FirstNonReservedID % 2` (forced even) and
`nextNativeID_` at `nextID_ + 1`.  `FirstNonReservedID` depends on
`RootSections.def`, which is not in the excerpt, so it is a parameter. -/
def initTracker (firstNonReservedID : Nat) : IDTracker :=
  { nextID := firstNonReservedID + firstNonReservedID % 2
    nextNativeID := firstNonReservedID + firstNonReservedID % 2 + 1
    objectIDMap := [] }

/-- `objectIDMap_.find(k)` / `count(k)`: look a key up in the map. -/
def lookupKey : List (Nat × Nat) → Nat → Option Nat
  | [], _ => none
  | (k', v) :: rest, k => if k = k' then some v else lookupKey rest k

/-- Erase a key from the map (`objectIDMap_.erase`). -/
def eraseKey (m : List (Nat × Nat)) (k : Nat) : List (Nat × Nat) :=
  m.filter (fun p => p.1 != k)

/-- `objectIDMap_[k] = v`: insert-or-assign semantics of `DenseMap::operator[]`. -/
def insertKV (m : List (Nat × Nat)) (k v : Nat) : List (Nat × Nat) :=
  (k, v) :: eraseKey m k

/-- `nextObjectID()`: fatal (`hermes_fatal`, modelled as `none`) on counter
exhaustion, otherwise `return nextID_ += kIDStep`. -/
def nextObjectID (t : IDTracker) : Option (Nat × IDTracker) :=
  if UINT64MAX - kIDStep ≤ t.nextID then none
  else some (t.nextID + kIDStep, { t with nextID := t.nextID + kIDStep })

/-- `nextNativeID()`: fatal on counter exhaustion, otherwise
`return nextNativeID_ += kIDStep`. -/
def nextNativeID (t : IDTracker) : Option (Nat × IDTracker) :=
  if UINT64MAX - kIDStep ≤ t.nextNativeID then none
  else some (t.nextNativeID + kIDStep, { t with nextNativeID := t.nextNativeID + kIDStep })

/-- `IDTracker::getObjectID(cell)`: return the mapped ID if present, else
assign the next object ID and insert it. -/
def getObjectID (t : IDTracker) (a : Nat) : Option (Nat × IDTracker) :=
  match lookupKey t.objectIDMap a with
  | some id => some (id, t)
  | none =>
    match nextObjectID t with
    | none => none
    | some (id, t') => some (id, { t' with objectIDMap := insertKV t'.objectIDMap a id })

/-- `IDTracker::getNativeID(mem)`: same shape as `getObjectID` on the shared
map, drawing from the native counter. -/
def getNativeID (t : IDTracker) (a : Nat) : Option (Nat × IDTracker) :=
  match lookupKey t.objectIDMap a with
  | some id => some (id, t)
  | none =>
    match nextNativeID t with
    | none => none
    | some (id, t') => some (id, { t' with objectIDMap := insertKV t'.objectIDMap a id })

/-- `IDTracker::moveObject(oldLocation, newLocation)`: no-op when the
locations coincide or the old location is untracked; otherwise erase the old
entry and map the new location to the old ID. -/
def moveObject (t : IDTracker) (oldLocation newLocation : Nat) : IDTracker :=
  if oldLocation = newLocation then t
  else
    match lookupKey t.objectIDMap oldLocation with
    | none => t
    | some oldID =>
      { t with objectIDMap := insertKV (eraseKey t.objectIDMap oldLocation) newLocation oldID }

/-- `IDTracker::untrackObject(cell)`. -/
def untrackObject (t : IDTracker) (a : Nat) : IDTracker :=
  { t with objectIDMap := eraseKey t.objectIDMap a }

/-- `IDTracker::untrackNative(mem)` delegates to `untrackObject`. -/
def untrackNative (t : IDTracker) (a : Nat) : IDTracker := untrackObject t a

/-- One mutator-visible tracker operation. -/
inductive TrackerOp where
  | getObj (a : Nat)
  | getNat (a : Nat)
  | move (oldLocation newLocation : Nat)
  | untrackObj (a : Nat)
  | untrackNat (a : Nat)
deriving DecidableEq, Repr

/-- Run a sequence of tracker operations from a state, logging every ID a
query returns as `(isObjectQuery, id)`.  A fatal counter exhaustion stops the
run (the process would have aborted). -/
def runOps : IDTracker → List TrackerOp → IDTracker × List (Bool × Nat)
  | t, [] => (t, [])
  | t, .getObj a :: rest =>
    match getObjectID t a with
    | none => (t, [])
    | some (id, t') => ((runOps t' rest).1, (true, id) :: (runOps t' rest).2)
  | t, .getNat a :: rest =>
    match getNativeID t a with
    | none => (t, [])
    | some (id, t') => ((runOps t' rest).1, (false, id) :: (runOps t' rest).2)
  | t, .move o n :: rest => runOps (moveObject t o n) rest
  | t, .untrackObj a :: rest => runOps (untrackObject t a) rest
  | t, .untrackNat a :: rest => runOps (untrackNative t a) rest

end IDT

namespace SegArr

/-- A `HermesValue` element slot: the designated "empty" sentinel
(`HermesValue::encodeEmptyValue()`) or an ordinary value whose payload is
abstracted as a natural number. -/
inductive HV where
  | empty : HV
  | val : Nat → HV
deriving DecidableEq, Repr

/-- A `SegmentedArray::Segment` cell: the declared `length_` and the
fixed-capacity payload `data_`.  `data i = none` models uninitialized memory
(a freshly allocated cell whose slot `i` has not been filled yet). -/
structure Segment where
  length : Nat
  data : Nat → Option HV

/-- One slot of the SegmentedArray's own trailing storage: either a plain
HermesValue (an inline element, or the "empty" sentinel marking an
unallocated segment-pointer slot) or a pointer to an allocated `Segment`
cell.  Each Segment is referenced by exactly one slot in this code, so the
segment cell is inlined into the slot.  `none` models uninitialized memory. -/
inductive SlotVal where
  | hv : HV → SlotVal
  | seg : Segment → SlotVal

/-- The `SegmentedArray` cell: `slotCapacity_`, `numSlotsUsed_` and the
trailing slot storage (slots `[0, threshold)` hold inline elements, slots
`threshold + k` hold the pointer to segment `k`). -/
structure SegmentedArray where
  slotCapacity : Nat
  numSlotsUsed : Nat
  slots : Nat → Option SlotVal

/-- Modelled from the spec: the compile-time layout constants of
`SegmentedArray`, declared in the header `hermes/VM/SegmentedArray.h` which
is not part of the excerpt.  `threshold` is `kValueToSegmentThreshold` (the
fixed inline threshold below which elements live in the cell's own storage),
`segLen` is `Segment::kMaxLength` (the fixed maximum length of one segment),
and `maxSegs` bounds the maximum segment index (which, with the segment
size, determines the maximum addressable element count). -/
structure SACfg where
  threshold : Nat
  segLen : Nat
  maxSegs : Nat
deriving DecidableEq, Repr

/-- Modelled from the spec: `toSegment(number)` — the segment number holding
element index `number ≥ threshold` ("elements at/above threshold live in
segments addressed by index/segment-size"; header not in the excerpt). -/
def toSegment (c : SACfg) (i : Nat) : Nat := (i - c.threshold) / c.segLen

/-- Modelled from the spec: `toInterior(number)` — the index within its
segment of element index `number ≥ threshold` (header not in the excerpt). -/
def toInterior (c : SACfg) (i : Nat) : Nat := (i - c.threshold) % c.segLen

/-- Modelled from the spec: `numSlotsForCapacity(capacity)` — the number of
storage slots (inline elements plus one slot per needed segment pointer)
needed to address `capacity` elements (header not in the excerpt). -/
def numSlotsForCapacity (c : SACfg) (capacity : Nat) : Nat :=
  if capacity ≤ c.threshold then capacity else c.threshold + toSegment c (capacity - 1) + 1

/-- Modelled from the spec: the element capacity addressable by a given
number of storage slots (the inverse of `numSlotsForCapacity`, used by
`SegmentedArray::capacity()`; header not in the excerpt). -/
def capacityForSlots (c : SACfg) (slotCount : Nat) : Nat :=
  if slotCount ≤ c.threshold then slotCount
  else c.threshold + (slotCount - c.threshold) * c.segLen

/-- Modelled from the spec: `maxElements()` — "the maximum addressable
element count (derived from segment size × maximum segment index)" plus the
inline threshold (header not in the excerpt). -/
def maxElements (c : SACfg) : Nat := c.segLen * c.maxSegs + c.threshold

/-- Modelled from the spec: `calculateNewCapacity(currentSize, minCapacity)`
— the capacity growth policy, "a policy function of old and new logical size
(monotonic, amortizing cost)"; the canonical doubling policy is used (header
not in the excerpt). -/
def calculateNewCapacity (currentSize minCapacity : Nat) : Nat :=
  max (currentSize * 2) minCapacity

/-- Overwrite positions `[lo, hi)` of a function (a raw
`GCHermesValue::fill` / pointer-range walk over storage). -/
def fillFn {α : Type} (f : Nat → α) (lo hi : Nat) (v : α) : Nat → α :=
  fun i => if lo ≤ i ∧ i < hi then v else f i

/-- Overwrite a single position of a function (a raw store). -/
def updFn {α : Type} (f : Nat → α) (j : Nat) (v : α) : Nat → α :=
  fun i => if i = j then v else f i

/-- `Segment::setLengthWithoutFilling(newLength)`. -/
def Segment.setLengthWithoutFilling (s : Segment) (newLength : Nat) : Segment :=
  { s with length := newLength }

/-- `Segment::setLength(newLength)`: when the length grows, fill
`data_[length_, newLength)` with the empty sentinel first. -/
def Segment.setLength (s : Segment) (newLength : Nat) : Segment :=
  if s.length < newLength then
    { length := newLength, data := fillFn s.data s.length newLength (some HV.empty) }
  else { s with length := newLength }

/-- `GCHermesValue::isEmpty()` applied to a raw slot. -/
def isEmptyHV : Option SlotVal → Bool
  | some (.hv .empty) => true
  | _ => false

/-- `SegmentedArray::size()`: `numSlotsUsed_` while inside inline storage,
otherwise the elements covered by all full segments plus the declared length
of the last segment.  Modelled from the spec ("`numSlotsUsed` (logical
high-water mark including any segment-pointer slots)"); the accessor itself
lives in the header, which is not in the excerpt. -/
def SegmentedArray.size (c : SACfg) (a : SegmentedArray) : Nat :=
  if a.numSlotsUsed ≤ c.threshold then a.numSlotsUsed
  else
    match a.slots (a.numSlotsUsed - 1) with
    | some (.seg s) => c.threshold + (a.numSlotsUsed - c.threshold - 1) * c.segLen + s.length
    | _ => c.threshold + (a.numSlotsUsed - c.threshold - 1) * c.segLen

/-- `SegmentedArray::capacity()`: the element capacity addressable by
`slotCapacity_` slots (header accessor; modelled from the spec's layout). -/
def SegmentedArray.capacity (c : SACfg) (a : SegmentedArray) : Nat :=
  capacityForSlots c a.slotCapacity

/-- `SegmentedArray::at(i)` as a raw read: inline storage below the
threshold, otherwise `segmentAt(toSegment(i))->at(toInterior(i))`.  Returns
`none` when the location is uninitialized or the segment is unallocated. -/
def atIdx (c : SACfg) (a : SegmentedArray) (i : Nat) : Option HV :=
  if i < c.threshold then
    match a.slots i with
    | some (.hv v) => some v
    | _ => none
  else
    match a.slots (c.threshold + toSegment c i) with
    | some (.seg s) => s.data (toInterior c i)
    | _ => none

/-- `segmentAt(k)-> ...` update: apply `f` to the segment pointed to by
slot `threshold + k` (no-op if the slot does not hold a segment pointer —
in C++ that would be the undefined dereference the asserts guard against). -/
def updateSegAt (c : SACfg) (a : SegmentedArray) (k : Nat) (f : Segment → Segment) :
    SegmentedArray :=
  match a.slots (c.threshold + k) with
  | some (.seg s) => { a with slots := updFn a.slots (c.threshold + k) (some (.seg (f s))) }
  | _ => a

/-- Raw write of element `i` through the inline/segment layout
(`at(i) = hv`, where `hv` may be the raw copy of an uninitialized value). -/
def writeElemOpt (c : SACfg) (a : SegmentedArray) (i : Nat) (ov : Option HV) :
    SegmentedArray :=
  if i < c.threshold then { a with slots := updFn a.slots i (ov.map SlotVal.hv) }
  else updateSegAt c a (toSegment c i) (fun s => { s with data := updFn s.data (toInterior c i) ov })

/-- `at(i).set(v)`: write an (initialized) element. -/
def writeElem (c : SACfg) (a : SegmentedArray) (i : Nat) (v : HV) : SegmentedArray :=
  writeElemOpt c a i (some v)

/-- `SegmentedArray::allocateSegment(segment)`: store a freshly created
`Segment` cell (`length_ == 0`, payload uninitialized) into slot
`threshold + segment`. -/
def allocateSegment (c : SACfg) (a : SegmentedArray) (k : Nat) : SegmentedArray :=
  { a with slots := updFn a.slots (c.threshold + k) (some (.seg ⟨0, fun _ => none⟩)) }

/-- The `for (i = startSegment + 1; i <= lastSegment; ++i) allocateSegment`
loop of `increaseSize`, as `n` iterations starting at segment `i`. -/
def allocSegsFrom (c : SACfg) (a : SegmentedArray) (i : Nat) : Nat → SegmentedArray
  | 0 => a
  | n + 1 => allocSegsFrom c (allocateSegment c a i) (i + 1) n

/-- The segment length assigned by the final loop of `increaseSize`:
`i == lastSegment ? toInterior(finalSize - 1) + 1 : Segment::kMaxLength`. -/
def segNewLen (c : SACfg) (finalSize lastSegment k : Nat) : Nat :=
  if k = lastSegment then toInterior c (finalSize - 1) + 1 else c.segLen

/-- The `for (i = startSegment; i <= lastSegment; ++i) setLength...` loop of
`increaseSize`, as `n` iterations starting at segment `i`. -/
def setSegLengths (c : SACfg) (Fill : Bool) (finalSize lastSegment : Nat) :
    SegmentedArray → Nat → Nat → SegmentedArray
  | a, _, 0 => a
  | a, i, n + 1 =>
    let a' := updateSegAt c a i (fun s =>
      if Fill then s.setLength (segNewLen c finalSize lastSegment i)
      else s.setLengthWithoutFilling (segNewLen c finalSize lastSegment i))
    setSegLengths c Fill finalSize lastSegment a' (i + 1) n

/-- Step of `increaseSize` (SegmentedArray.cpp:385-394): if the old size is
still inside inline storage, fill the inline region up to the threshold with
the empty sentinel and set `numSlotsUsed_` to the threshold. -/
def incStep1 (c : SACfg) (a : SegmentedArray) (currSize : Nat) : SegmentedArray :=
  if currSize ≤ c.threshold then
    { a with slots := fillFn a.slots currSize c.threshold (some (.hv HV.empty)),
             numSlotsUsed := c.threshold }
  else a

/-- Step of `increaseSize` (SegmentedArray.cpp:405-415): expose the new
segment-pointer slots, filled with the empty sentinel, and raise
`numSlotsUsed_` to its final value before any allocation can run. -/
def incStep2 (_c : SACfg) (a : SegmentedArray) (newNumSlotsUsed : Nat) : SegmentedArray :=
  { a with slots := fillFn a.slots a.numSlotsUsed newNumSlotsUsed (some (.hv HV.empty)),
           numSlotsUsed := newNumSlotsUsed }

/-- Step of `increaseSize` (SegmentedArray.cpp:420-425): allocate the start
segment if it is not already allocated. -/
def incStep3 (c : SACfg) (a : SegmentedArray) (startSegment lastSegment : Nat) :
    SegmentedArray :=
  if startSegment ≤ lastSegment ∧ isEmptyHV (a.slots (c.threshold + startSegment)) then
    allocateSegment c a startSegment
  else a

/-- `SegmentedArray::increaseSize<Fill>(self, amount)`
(SegmentedArray.cpp:359-446), translated step for step: bump-and-fill inside
inline storage; otherwise top off the inline region (`incStep1`), expose the
new segment-pointer slots as empty (`incStep2`), allocate the missing
segments (`incStep3` and the `allocSegsFrom` loop), then set the segment
lengths (`setSegLengths`, filling the payload when `Fill`). -/
def increaseSize (c : SACfg) (Fill : Bool) (self : SegmentedArray) (amount : Nat) :
    SegmentedArray :=
  if self.size c ≤ c.threshold ∧ self.size c + amount ≤ c.threshold then
    { (if Fill then
        { self with
          slots := fillFn self.slots (self.size c) (self.size c + amount)
            (some (.hv HV.empty)) }
      else self) with
      numSlotsUsed := self.size c + amount }
  else
    setSegLengths c Fill (self.size c + amount) (toSegment c (self.size c + amount - 1))
      (allocSegsFrom c
        (incStep3 c
          (incStep2 c (incStep1 c self (self.size c))
            (numSlotsForCapacity c (self.size c + amount)))
          (if self.size c ≤ c.threshold then 0 else toSegment c (self.size c - 1))
          (toSegment c (self.size c + amount - 1)))
        ((if self.size c ≤ c.threshold then 0 else toSegment c (self.size c - 1)) + 1)
        (toSegment c (self.size c + amount - 1) -
          (if self.size c ≤ c.threshold then 0 else toSegment c (self.size c - 1))))
      (if self.size c ≤ c.threshold then 0 else toSegment c (self.size c - 1))
      (toSegment c (self.size c + amount - 1) + 1 -
        (if self.size c ≤ c.threshold then 0 else toSegment c (self.size c - 1)))

/-- `SegmentedArray::decreaseSize(amount)` (SegmentedArray.cpp:448-459):
truncate the new last segment's declared length and lower `numSlotsUsed_`;
no slot beyond the new size is re-filled. -/
def decreaseSize (c : SACfg) (self : SegmentedArray) (amount : Nat) : SegmentedArray :=
  if self.size c - amount ≤ c.threshold then
    { self with numSlotsUsed := self.size c - amount }
  else
    { updateSegAt c self (toSegment c (self.size c - amount - 1))
        (fun s => s.setLength (toInterior c (self.size c - amount - 1) + 1)) with
      numSlotsUsed := numSlotsForCapacity c (self.size c - amount) }

/-- The message of `throwExcessiveCapacityError` (SegmentedArray.cpp:231-241). -/
def errorMessage (c : SACfg) (capacity : Nat) : String :=
  "Requested an array size larger than the max allowable: Requested elements = " ++
    toString capacity ++ ", max elements = " ++ toString (maxElements c)

/-- `SegmentedArray::create(runtime, capacity)` (SegmentedArray.cpp:139-150):
range error past `maxElements()`, otherwise a fresh cell sized for
`capacity` with `numSlotsUsed_ == 0` and no segments allocated (the spec:
"all segment-pointer slots are empty"; the constructor lives in the missing
header, so every slot starts as the empty sentinel, modelled from the spec). -/
def create (c : SACfg) (capacity : Nat) : Except String SegmentedArray :=
  if maxElements c < capacity then .error (errorMessage c capacity)
  else .ok { slotCapacity := numSlotsForCapacity c capacity
             numSlotsUsed := 0
             slots := fun _ => some (.hv HV.empty) }

/-- `growRightWithinCapacity` (SegmentedArray.cpp:321-329). -/
def growRightWithinCapacity (c : SACfg) (self : SegmentedArray) (amount : Nat) :
    SegmentedArray :=
  increaseSize c true self amount

/-- Element-range fill with the empty sentinel
(`GCHermesValue::fill(begin() + lo, begin() + lo + n, empty)`). -/
def fillElems (c : SACfg) : SegmentedArray → Nat → Nat → SegmentedArray
  | a, _, 0 => a
  | a, lo, n + 1 => fillElems c (writeElem c a lo HV.empty) (lo + 1) n

/-- `GCHermesValue::copy_backward(begin(), end() - amount, end())` on a
single array: copy `n` elements so that index `amount + j` receives index
`j`, walking from the top down as `copy_backward` does. -/
def copyBackwardSame (c : SACfg) (amount : Nat) : SegmentedArray → Nat → SegmentedArray
  | a, 0 => a
  | a, n + 1 => copyBackwardSame c amount (writeElemOpt c a (amount + n) (atIdx c a n)) n

/-- `GCHermesValue::copy(src.begin() + sIdx, ..., dst.begin() + dIdx)` across
two distinct arrays: `n` forward element copies. -/
def copyAcross (c : SACfg) (src : SegmentedArray) :
    SegmentedArray → Nat → Nat → Nat → SegmentedArray
  | dst, _, _, 0 => dst
  | dst, sIdx, dIdx, n + 1 =>
    copyAcross c src (writeElemOpt c dst dIdx (atIdx c src sIdx)) (sIdx + 1) (dIdx + 1) n

/-- `GCHermesValue::copy(begin() + amount, end(), begin())` on a single
array (the `shrinkLeft` shift): forward copies reading the evolving array,
exactly as the iterator loop does. -/
def copyForwardSame (c : SACfg) (amount : Nat) : SegmentedArray → Nat → Nat → SegmentedArray
  | a, _, 0 => a
  | a, j, n + 1 => copyForwardSame c amount (writeElemOpt c a j (atIdx c a (j + amount))) (j + 1) n

/-- `growLeftWithinCapacity` (SegmentedArray.cpp:331-346): grow without
filling, shift everything up by `amount` with `copy_backward`, then fill the
freed prefix with the empty sentinel. -/
def growLeftWithinCapacity (c : SACfg) (self : SegmentedArray) (amount : Nat) :
    SegmentedArray :=
  fillElems c
    (copyBackwardSame c amount (increaseSize c false self amount)
      ((increaseSize c false self amount).size c - amount))
    0 amount

/-- `SegmentedArray::growRight` (SegmentedArray.cpp:255-284).  The returned
flag records whether the reallocation path ran (a brand-new cell was
created and the live slots copied across). -/
def growRight (c : SACfg) (self : SegmentedArray) (amount : Nat) :
    Except String (SegmentedArray × Bool) :=
  if self.size c + amount ≤ self.capacity c then
    .ok (growRightWithinCapacity c self amount, false)
  else
    match create c (calculateNewCapacity (self.size c) (self.size c + amount)) with
    | .error e => .error e
    | .ok newArr =>
      .ok (increaseSize c true
        { newArr with
          slots := fun i => if i < self.numSlotsUsed then self.slots i else newArr.slots i,
          numSlotsUsed := self.numSlotsUsed } amount, true)

/-- `SegmentedArray::growLeft` (SegmentedArray.cpp:286-319).  Note the
strict `<` in the within-capacity test, mirroring the source.  The returned
flag records whether the reallocation path ran. -/
def growLeft (c : SACfg) (self : SegmentedArray) (amount : Nat) :
    Except String (SegmentedArray × Bool) :=
  if self.size c + amount < self.capacity c then
    .ok (growLeftWithinCapacity c self amount, false)
  else
    match create c (calculateNewCapacity (self.size c) (self.size c + amount)) with
    | .error e => .error e
    | .ok newArr =>
      .ok (copyAcross c self
        (fillElems c (increaseSize c false newArr (self.size c + amount)) 0 amount)
        0 amount (self.size c), true)

/-- `SegmentedArray::shrinkRight(amount)` (SegmentedArray.cpp:348-350). -/
def shrinkRight (c : SACfg) (self : SegmentedArray) (amount : Nat) : SegmentedArray :=
  decreaseSize c self amount

/-- `SegmentedArray::shrinkLeft(amount)` (SegmentedArray.cpp:352-357). -/
def shrinkLeft (c : SACfg) (self : SegmentedArray) (amount : Nat) : SegmentedArray :=
  decreaseSize c (copyForwardSame c amount self 0 (self.size c - amount)) amount

/-- `SegmentedArray::push_back(self, value)` (SegmentedArray.cpp:177-188). -/
def push_back (c : SACfg) (self : SegmentedArray) (v : HV) : Except String SegmentedArray :=
  match growRight c self 1 with
  | .error e => .error e
  | .ok (a', _) => .ok (writeElem c a' (self.size c) v)

/-- `SegmentedArray::resize` (SegmentedArray.cpp:190-200). -/
def resize (c : SACfg) (self : SegmentedArray) (newSize : Nat) :
    Except String SegmentedArray :=
  if self.size c < newSize then (growRight c self (newSize - self.size c)).map Prod.fst
  else if newSize < self.size c then .ok (shrinkRight c self (self.size c - newSize))
  else .ok self

/-- `SegmentedArray::resizeLeft` (SegmentedArray.cpp:202-214). -/
def resizeLeft (c : SACfg) (self : SegmentedArray) (newSize : Nat) :
    Except String SegmentedArray :=
  if newSize = self.size c then .ok self
  else if self.size c < newSize then (growLeft c self (newSize - self.size c)).map Prod.fst
  else .ok (shrinkLeft c self (self.size c - newSize))

/-- `SegmentedArray::resizeWithinCapacity` (SegmentedArray.cpp:216-229). -/
def resizeWithinCapacity (c : SACfg) (self : SegmentedArray) (newSize : Nat) :
    SegmentedArray :=
  if self.size c < newSize then growRightWithinCapacity c self (newSize - self.size c)
  else if newSize < self.size c then shrinkRight c self (self.size c - newSize)
  else self

/-- Drive `N` `push_back`s from `create(capacity = 0)`, accumulating the
element-copy work of every reallocation: each time `growRight` takes the
reallocation path it copies the `numSlotsUsed_` live slots of the old array
into the brand-new one (SegmentedArray.cpp:270-278), so that count is added.
`none` means a push failed (range error), i.e. the run stopped. -/
def pushRun (c : SACfg) : Nat → Option (SegmentedArray × Nat)
  | 0 =>
    match create c 0 with
    | .ok a => some (a, 0)
    | .error _ => none
  | n + 1 =>
    match pushRun c n with
    | none => none
    | some (a, cost) =>
      match growRight c a 1 with
      | .error _ => none
      | .ok (a', realloc) =>
        some (writeElem c a' (a.size c) (HV.val n),
              cost + if realloc then a.numSlotsUsed else 0)

/-- One segment-pointer slot is well formed: it holds an allocated segment
whose declared length is positive, at most `Segment::kMaxLength`, and equal
to `Segment::kMaxLength` unless it is the last used segment. -/
def slotSegOK (c : SACfg) (numSlotsUsed k : Nat) (x : Option SlotVal) : Bool :=
  match x with
  | some (.seg s) =>
    decide (0 < s.length) && decide (s.length ≤ c.segLen) &&
      (!decide (c.threshold + k + 1 < numSlotsUsed) || decide (s.length = c.segLen))
  | _ => false

/-- Structural well-formedness of a `SegmentedArray`: the slot high-water
mark fits the allocation, and every in-use segment-pointer slot holds an
allocated, well-sized segment (full except possibly the last). -/
def WF (c : SACfg) (a : SegmentedArray) : Prop :=
  a.numSlotsUsed ≤ a.slotCapacity ∧
  ∀ k, k < a.numSlotsUsed - c.threshold →
    slotSegOK c a.numSlotsUsed k (a.slots (c.threshold + k)) = true

/-- Element index `i` is backed by storage: inline, or in an allocated
segment. -/
def allocated (c : SACfg) (a : SegmentedArray) (i : Nat) : Prop :=
  i < c.threshold ∨ ∃ s, a.slots (c.threshold + toSegment c i) = some (.seg s)

/-- A default (never well-formed) array for extracting `Except` results. -/
def dfltArr : SegmentedArray := { slotCapacity := 0, numSlotsUsed := 0, slots := fun _ => none }

/-- Extract the array from a successful operation. -/
def getOk : Except String SegmentedArray → SegmentedArray
  | .ok a => a
  | .error _ => dfltArr

/-- A small concrete configuration (threshold 2, segment length 3, at most
10 segments) used by the concrete witnesses and counterexamples. -/
def cfg2 : SACfg := { threshold := 2, segLen := 3, maxSegs := 10 }

end SegArr

namespace SegArr

/-- Extract the array from a successful grow operation. -/
def getOkP : Except String (SegmentedArray × Bool) → SegmentedArray
  | .ok (a, _) => a
  | .error _ => dfltArr

/-- Concrete run: create capacity 2, push the value 7, shrink right by 1.
The stale value 7 is left in inline slot 0constituting the C1 counterexample. -/
def exShrunk : SegmentedArray :=
  shrinkRight cfg2 (getOk (push_back cfg2 (getOk (create cfg2 2)) (HV.val 7))) 1

/-- Concrete array of size 1 with capacity 2 (`size + 1 = capacity`). -/
def exFullLeft : SegmentedArray := getOk (resize cfg2 (getOk (create cfg2 2)) 1)

/-- Concrete array of size 1 with capacity 5, holding the value 5 at index 0. -/
def exOne : SegmentedArray :=
  writeElem cfg2 (getOk (resize cfg2 (getOk (create cfg2 4)) 1)) 0 (HV.val 5)

/-- Extract the result of a successful `pushRun`. -/
def getSomeP (d : SegmentedArray × Nat) : Option (SegmentedArray × Nat) → SegmentedArray × Nat
  | some p => p
  | none => d

/-- The slot transformation performed by one iteration of `increaseSize`'s
final set-the-lengths loop (used to state its characterization). -/
def applySetLen (_c : SACfg) (Fill : Bool) (len : Nat) : Option SlotVal → Option SlotVal
  | some (.seg s) =>
    some (.seg (if Fill then s.setLength len else s.setLengthWithoutFilling len))
  | x => x

end SegArr

/-! ## Theorems -/

namespace WRS

/-- C5: for a `WeakRefSlot` in the `Unmarked` state holding a referent
pointer, `mark()` followed by `unmark()` restores the exact observable
value: same stored tagged pointer, same `state()`, same `value()`. -/
theorem mark_unmark_roundtrip (s : WeakRefSlot) (h1 : s.state = Unmarked)
    (h2 : s.hasPointer = true) :
    s.mark.unmark = s ∧ s.mark.unmark.state = s.state ∧
      s.mark.unmark.tagged = s.tagged ∧ s.mark.unmark.value = s.value := by
  obtain ⟨t⟩ := s
  have h : WeakRefSlot.unmark (WeakRefSlot.mark ⟨t⟩) = ⟨t⟩ := by
    simp [WeakRefSlot.mark, WeakRefSlot.unmark]
  exact ⟨h, by rw [h], by rw [h], by rw [h]⟩

/-- Witness for C5 at the concrete slot with tagged pointer 8. -/
theorem mark_unmark_roundtrip_witness :
    (WeakRefSlot.mk 8).state = Unmarked ∧ (WeakRefSlot.mk 8).hasPointer = true ∧
      (WeakRefSlot.mk 8).mark.unmark = WeakRefSlot.mk 8 :=
  ⟨by decide, by decide, (mark_unmark_roundtrip ⟨8⟩ (by decide) (by decide)).1⟩

/-- C6: for a slot in a non-`Free` state and a properly aligned new referent
address (heap cells are at least 4-byte aligned, so the low two bits are
zero), `setPointer` preserves the state bits exactly and `getPointer`
afterwards returns the new address. -/
theorem setPointer_preserves_state (s : WeakRefSlot) (p : Nat) (hs : s.state ≠ Free)
    (hp : p % 4 = 0) :
    (s.setPointer p).state = s.state ∧ (s.setPointer p).getPointer = p := by
  obtain ⟨t⟩ := s
  constructor
  · show (p + t % 4) % 4 = t % 4
    omega
  · show p + t % 4 - (p + t % 4) % 4 = p
    omega

/-- Witness for C6 at the concrete slot with tagged pointer 13 (state
`Marked`) and new address 20. -/
theorem setPointer_preserves_state_witness :
    (WeakRefSlot.mk 13).state ≠ Free ∧ (20 : Nat) % 4 = 0 ∧
      ((WeakRefSlot.mk 13).setPointer 20).state = (WeakRefSlot.mk 13).state ∧
      ((WeakRefSlot.mk 13).setPointer 20).getPointer = 20 :=
  ⟨by decide, by decide,
    (setPointer_preserves_state ⟨13⟩ 20 (by decide) (by decide)).1,
    (setPointer_preserves_state ⟨13⟩ 20 (by decide) (by decide)).2⟩

/-- C10: freeing an `Unmarked` slot with an aligned next-free pointer `p`
(low two bits zero, null included) moves the slot to the `Free` state and
`nextFree()` reads back exactly `p`. -/
theorem free_nextFree_roundtrip (s : WeakRefSlot) (p : Nat) (_hs : s.state = Unmarked)
    (hp : p % 4 = 0) :
    (s.free p).state = Free ∧ (s.free p).nextFree = p := by
  constructor
  · show (p + 2) % 4 = 2
    omega
  · show p + 2 - 2 = p
    omega

/-- Witness for C10 at the concrete slot with tagged pointer 8 and next-free
pointer 0 (null). -/
theorem free_nextFree_roundtrip_witness :
    (WeakRefSlot.mk 8).state = Unmarked ∧ (0 : Nat) % 4 = 0 ∧
      ((WeakRefSlot.mk 8).free 0).state = Free ∧ ((WeakRefSlot.mk 8).free 0).nextFree = 0 :=
  ⟨by decide, by decide,
    (free_nextFree_roundtrip ⟨8⟩ 0 (by decide) (by decide)).1,
    (free_nextFree_roundtrip ⟨8⟩ 0 (by decide) (by decide)).2⟩

end WRS

namespace IDT

theorem lookupKey_eraseKey (m : List (Nat × Nat)) (k j : Nat) :
    lookupKey (eraseKey m k) j = if j = k then none else lookupKey m j := by
  induction m with
  | nil => simp [eraseKey, lookupKey]
  | cons p rest ih =>
    obtain ⟨k', v⟩ := p
    by_cases hpk : k' = k
    · subst hpk
      simp only [eraseKey, List.filter_cons] at *
      simp only [bne_self_eq_false, Bool.false_eq_true, if_false] at *
      rw [ih]
      by_cases hjk : j = k' <;> simp [lookupKey, hjk]
    · simp only [eraseKey, List.filter_cons] at *
      have : (k' != k) = true := by simpa using hpk
      rw [this]
      simp only [if_true]
      by_cases hjk' : j = k'
      · subst hjk'
        simp [lookupKey, hpk]
      · simp [lookupKey, hjk', ih]

theorem lookupKey_insertKV (m : List (Nat × Nat)) (k v j : Nat) :
    lookupKey (insertKV m k v) j = if j = k then some v else lookupKey m j := by
  by_cases hjk : j = k <;> simp [insertKV, lookupKey, hjk, lookupKey_eraseKey]

/-- C3: `moveObject(old, new)` is a no-op when `old == new` or when `old` is
untracked; otherwise it relocates the entry (one functional map update — no
intermediate state is observable in this sequential model): afterwards the
new location maps to the ID previously associated with `old`, and `old` is
no longer tracked. -/
theorem moveObject_spec (t : IDTracker) (o n id : Nat) :
    (o = n → moveObject t o n = t) ∧
    (lookupKey t.objectIDMap o = none → moveObject t o n = t) ∧
    (o ≠ n → lookupKey t.objectIDMap o = some id →
      lookupKey (moveObject t o n).objectIDMap n = some id ∧
      lookupKey (moveObject t o n).objectIDMap o = none) := by
  refine ⟨fun h => by simp [moveObject, h], fun h => ?_, fun hne h => ?_⟩
  · unfold moveObject
    split
    · rfl
    · rw [h]
  · unfold moveObject
    rw [if_neg hne, h]
    constructor
    · simp [lookupKey_insertKV]
    · rw [lookupKey_insertKV, if_neg hne, lookupKey_eraseKey, if_pos rfl]

/-- Witness for C3: a concrete relocation from address 1 to address 2. -/
theorem moveObject_spec_witness :
    lookupKey (moveObject ⟨4, 5, [(1, 10)]⟩ 1 2).objectIDMap 2 = some 10 ∧
    lookupKey (moveObject ⟨4, 5, [(1, 10)]⟩ 1 2).objectIDMap 1 = none :=
  (moveObject_spec ⟨4, 5, [(1, 10)]⟩ 1 2 10).2.2 (by decide) (by decide)

end IDT

namespace IDT

/-- C4 counterexample: object IDs and native IDs share one address map, so
querying `getObjectID` on an address first tracked through `getNativeID`
returns the previously assigned odd native ID.  From `initTracker 2`
(`FirstNonReservedID = 2`), `getNativeID 100` assigns the odd ID 5 and the
subsequent `getObjectID 100` returns that same odd ID 5. -/
theorem sharedMap_parity_violation :
    (runOps (initTracker 2) [.getNat 100, .getObj 100]).2 = [(false, 5), (true, 5)] ∧
      (5 : Nat) % 2 = 1 := by
  constructor
  · rfl
  · decide

theorem getObjectID_counters (t : IDTracker) (a id : Nat) (t' : IDTracker)
    (h : getObjectID t a = some (id, t')) :
    (t'.nextID = t.nextID ∨ t'.nextID = t.nextID + kIDStep) ∧
      t'.nextNativeID = t.nextNativeID := by
  rcases hl : lookupKey t.objectIDMap a with - | v
  · by_cases hb : UINT64MAX - kIDStep ≤ t.nextID
    · simp [getObjectID, nextObjectID, hl, hb] at h
    · simp [getObjectID, nextObjectID, hl, hb] at h
      obtain ⟨-, rfl⟩ := h
      exact ⟨Or.inr rfl, rfl⟩
  · simp [getObjectID, hl] at h
    obtain ⟨rfl, rfl⟩ := h
    exact ⟨Or.inl rfl, rfl⟩

theorem getNativeID_counters (t : IDTracker) (a id : Nat) (t' : IDTracker)
    (h : getNativeID t a = some (id, t')) :
    (t'.nextNativeID = t.nextNativeID ∨ t'.nextNativeID = t.nextNativeID + kIDStep) ∧
      t'.nextID = t.nextID := by
  rcases hl : lookupKey t.objectIDMap a with - | v
  · by_cases hb : UINT64MAX - kIDStep ≤ t.nextNativeID
    · simp [getNativeID, nextNativeID, hl, hb] at h
    · simp [getNativeID, nextNativeID, hl, hb] at h
      obtain ⟨-, rfl⟩ := h
      exact ⟨Or.inr rfl, rfl⟩
  · simp [getNativeID, hl] at h
    obtain ⟨rfl, rfl⟩ := h
    exact ⟨Or.inl rfl, rfl⟩

theorem moveObject_counters (t : IDTracker) (o n : Nat) :
    (moveObject t o n).nextID = t.nextID ∧ (moveObject t o n).nextNativeID = t.nextNativeID := by
  unfold moveObject
  split
  · exact ⟨rfl, rfl⟩
  · split
    · exact ⟨rfl, rfl⟩
    · exact ⟨rfl, rfl⟩

theorem runOps_counter_parity (ops : List TrackerOp) :
    ∀ t : IDTracker, t.nextID % 2 = 0 → t.nextNativeID % 2 = 1 →
      (runOps t ops).1.nextID % 2 = 0 ∧ (runOps t ops).1.nextNativeID % 2 = 1 := by
  have hk : kIDStep = 2 := rfl
  induction ops with
  | nil => exact fun t h1 h2 => ⟨h1, h2⟩
  | cons op rest ih =>
    intro t h1 h2
    cases op with
    | getObj a =>
      rcases hg : getObjectID t a with - | ⟨id, t'⟩
      · simpa [runOps, hg] using ⟨h1, h2⟩
      · have hc := getObjectID_counters t a id t' hg
        have h1' : t'.nextID % 2 = 0 := by
          rcases hc.1 with h | h <;> omega
        have h2' : t'.nextNativeID % 2 = 1 := by rw [hc.2]; exact h2
        simpa [runOps, hg] using ih t' h1' h2'
    | getNat a =>
      rcases hg : getNativeID t a with - | ⟨id, t'⟩
      · simpa [runOps, hg] using ⟨h1, h2⟩
      · have hc := getNativeID_counters t a id t' hg
        have h2' : t'.nextNativeID % 2 = 1 := by
          rcases hc.1 with h | h <;> omega
        have h1' : t'.nextID % 2 = 0 := by rw [hc.2]; exact h1
        simpa [runOps, hg] using ih t' h1' h2'
    | move o n =>
      have hm := moveObject_counters t o n
      simpa [runOps] using ih (moveObject t o n) (by rw [hm.1]; exact h1) (by rw [hm.2]; exact h2)
    | untrackObj a => simpa [runOps] using ih (untrackObject t a) h1 h2
    | untrackNat a => simpa [runOps] using ih (untrackNative t a) h1 h2

/-- C4 (amended): the ID counters keep strict parity across every operation
sequence — the object counter stays even, the native counter stays odd — so
every freshly assigned object ID is even and every freshly assigned native
ID is odd.  (Because both kinds share one address map, the parity of a
*returned* ID is only guaranteed for addresses that were not previously
tracked through the other accessor; see the counterexample.) -/
theorem fresh_id_parity :
    (∀ firstID : Nat, ∀ ops : List TrackerOp,
      (runOps (initTracker firstID) ops).1.nextID % 2 = 0 ∧
        (runOps (initTracker firstID) ops).1.nextNativeID % 2 = 1) ∧
    (∀ t : IDTracker, ∀ a id : Nat, ∀ t' : IDTracker, t.nextID % 2 = 0 →
      lookupKey t.objectIDMap a = none → getObjectID t a = some (id, t') → id % 2 = 0) ∧
    (∀ t : IDTracker, ∀ a id : Nat, ∀ t' : IDTracker, t.nextNativeID % 2 = 1 →
      lookupKey t.objectIDMap a = none → getNativeID t a = some (id, t') → id % 2 = 1) := by
  have hk : kIDStep = 2 := rfl
  refine ⟨fun firstID ops => ?_, fun t a id t' hp hl h => ?_, fun t a id t' hp hl h => ?_⟩
  · refine runOps_counter_parity ops (initTracker firstID) ?_ ?_
    · show (firstID + firstID % 2) % 2 = 0
      omega
    · show (firstID + firstID % 2 + 1) % 2 = 1
      omega
  · by_cases hb : UINT64MAX - kIDStep ≤ t.nextID
    · simp [getObjectID, nextObjectID, hl, hb] at h
    · simp [getObjectID, nextObjectID, hl, hb] at h
      obtain ⟨rfl, -⟩ := h
      omega
  · by_cases hb : UINT64MAX - kIDStep ≤ t.nextNativeID
    · simp [getNativeID, nextNativeID, hl, hb] at h
    · simp [getNativeID, nextNativeID, hl, hb] at h
      obtain ⟨rfl, -⟩ := h
      omega

/-- Witness for the amended C4: counter parity after a concrete run, and the
parity of concrete freshly assigned IDs. -/
theorem fresh_id_parity_witness :
    ((runOps (initTracker 2) [.getObj 7, .getNat 9]).1.nextID % 2 = 0 ∧
      (runOps (initTracker 2) [.getObj 7, .getNat 9]).1.nextNativeID % 2 = 1) ∧
    (4 : Nat) % 2 = 0 ∧ (5 : Nat) % 2 = 1 :=
  ⟨fresh_id_parity.1 2 [.getObj 7, .getNat 9],
    fresh_id_parity.2.1 (initTracker 2) 7 4 ⟨4, 3, [(7, 4)]⟩ (by decide) (by decide) rfl,
    fresh_id_parity.2.2 (initTracker 2) 9 5 ⟨2, 5, [(9, 5)]⟩ (by decide) (by decide) rfl⟩

end IDT

namespace SegArr

/-- C2: `create(runtime, capacity)` raises a range error naming both the
requested and the maximum element count exactly when `capacity` exceeds
`maxElements()`; otherwise it returns (never aborts) a fresh array with
`numSlotsUsed == 0` and every slot — in particular every segment-pointer
slot — holding the empty sentinel, i.e. no segments allocated. -/
theorem create_spec (c : SACfg) (capacity : Nat) :
    ((∃ e, create c capacity = .error e) ↔ maxElements c < capacity) ∧
    (maxElements c < capacity → create c capacity = .error (errorMessage c capacity)) ∧
    (capacity ≤ maxElements c → ∃ a, create c capacity = .ok a ∧ a.numSlotsUsed = 0 ∧
      a.slotCapacity = numSlotsForCapacity c capacity ∧
      ∀ j, a.slots j = some (.hv HV.empty)) := by
  unfold create
  by_cases h : maxElements c < capacity
  · rw [if_pos h]
    exact ⟨⟨fun _ => h, fun _ => ⟨_, rfl⟩⟩, fun _ => rfl, fun h' => absurd h (by omega)⟩
  · rw [if_neg h]
    refine ⟨⟨fun ⟨e, he⟩ => absurd he (by simp), fun h' => absurd h' h⟩,
      fun h' => absurd h' h, fun _ => ⟨_, rfl, rfl, rfl, fun j => rfl⟩⟩

/-- Witness for C2: the concrete configuration `cfg2` (max 32 elements)
rejects capacity 40 with the exact message and accepts capacity 5. -/
theorem create_spec_witness :
    create cfg2 40 = .error (errorMessage cfg2 40) ∧
    (∃ a, create cfg2 5 = .ok a ∧ a.numSlotsUsed = 0 ∧
      a.slotCapacity = numSlotsForCapacity cfg2 5 ∧
      ∀ j, a.slots j = some (.hv HV.empty)) :=
  ⟨(create_spec cfg2 40).2.1 (by decide), (create_spec cfg2 5).2.2 (by decide)⟩

/-- C8 counterexample: an array with `size() + amount == capacity()` (here
size 1, amount 1, capacity 2) satisfies the claim's within-capacity
condition `size + amount <= capacity`, yet `growLeft` takes the
reallocation path (flag `true`): the source tests `size + amount <
capacity` strictly (SegmentedArray.cpp:290). -/
theorem growLeft_at_capacity_reallocates :
    exFullLeft.size cfg2 = 1 ∧ exFullLeft.capacity cfg2 = 2 ∧
    exFullLeft.size cfg2 + 1 ≤ exFullLeft.capacity cfg2 ∧
    (growLeft cfg2 exFullLeft 1).map Prod.snd = .ok true := by
  exact ⟨rfl, by decide, by decide, rfl⟩

/-- C8 (amended): `growLeft` takes the in-place within-capacity path iff
`size() + amount < capacity()` (strict): at `size + amount == capacity` it
reallocates a brand-new array even though the result would fit, while
`growRight` grows in place for every `size + amount <= capacity`. -/
theorem growLeft_path_iff (c : SACfg) (a : SegmentedArray) (amount : Nat) :
    (a.size c + amount < a.capacity c →
      growLeft c a amount = .ok (growLeftWithinCapacity c a amount, false)) ∧
    (a.capacity c ≤ a.size c + amount →
      ∀ r, growLeft c a amount = .ok r → r.2 = true) ∧
    (a.size c + amount ≤ a.capacity c →
      growRight c a amount = .ok (growRightWithinCapacity c a amount, false)) := by
  refine ⟨fun h => ?_, fun h r hr => ?_, fun h => ?_⟩
  · unfold growLeft
    rw [if_pos h]
  · unfold growLeft at hr
    rw [if_neg (by omega)] at hr
    split at hr
    · exact absurd hr (by simp)
    · simp only [Except.ok.injEq] at hr
      rw [← hr]
  · unfold growRight
    rw [if_pos h]

/-- Witness for the amended C8: both branches at concrete inputs —
`exFullLeft` (size 1, capacity 2) reallocates for amount 1 and grows
in place for amount 0. -/
theorem growLeft_path_iff_witness :
    growLeft cfg2 exFullLeft 0 = .ok (growLeftWithinCapacity cfg2 exFullLeft 0, false) ∧
    (∀ r, growLeft cfg2 exFullLeft 1 = .ok r → r.2 = true) ∧
    growRight cfg2 exFullLeft 1 = .ok (growRightWithinCapacity cfg2 exFullLeft 1, false) :=
  ⟨(growLeft_path_iff cfg2 exFullLeft 0).1 (by decide),
    (growLeft_path_iff cfg2 exFullLeft 1).2.1 (by decide),
    (growLeft_path_iff cfg2 exFullLeft 1).2.2 (by decide)⟩

/-- C1 counterexample: create capacity 2, `push_back` the value 7 (size 1),
then `shrinkRight(1)` (size 0).  Slot 0 lies in inline storage at an index
in `[size, slotCapacity) = [0, 2)`, yet still holds the stale value 7, not
the empty sentinel: `decreaseSize` (SegmentedArray.cpp:448-459) only lowers
`numSlotsUsed_` and truncates the last segment length; it never re-fills
the abandoned slots. -/
theorem shrink_leaves_stale_slot :
    exShrunk.size cfg2 = 0 ∧ 0 < exShrunk.slotCapacity ∧ 0 < cfg2.threshold ∧
    atIdx cfg2 exShrunk 0 = some (HV.val 7) ∧ some (HV.val 7) ≠ some HV.empty := by
  exact ⟨rfl, by decide, by decide, rfl, by decide⟩

end SegArr

namespace SegArr

theorem toSeg_toInt (c : SACfg) (i : Nat) (_hL : 0 < c.segLen) (hT : c.threshold ≤ i) :
    c.threshold + toSegment c i * c.segLen + toInterior c i = i := by
  unfold toSegment toInterior
  have h := Nat.div_add_mod (i - c.threshold) c.segLen
  have h2 : (i - c.threshold) / c.segLen * c.segLen =
      c.segLen * ((i - c.threshold) / c.segLen) := Nat.mul_comm _ _
  omega

theorem toInterior_lt (c : SACfg) (i : Nat) (hL : 0 < c.segLen) :
    toInterior c i < c.segLen :=
  Nat.mod_lt _ hL

theorem toSegment_mono (c : SACfg) {i j : Nat} (h : i ≤ j) :
    toSegment c i ≤ toSegment c j :=
  Nat.div_le_div_right (Nat.sub_le_sub_right h _)

theorem elem_index_inj (c : SACfg) {i j : Nat} (hL : 0 < c.segLen)
    (hi : c.threshold ≤ i) (hj : c.threshold ≤ j)
    (hs : toSegment c i = toSegment c j) (ht : toInterior c i = toInterior c j) : i = j := by
  have h1 := toSeg_toInt c i hL hi
  have h2 := toSeg_toInt c j hL hj
  rw [hs, ht] at h1
  omega

theorem numSlots_of_gt (c : SACfg) (sz : Nat) (h : c.threshold < sz) :
    numSlotsForCapacity c sz = c.threshold + toSegment c (sz - 1) + 1 := by
  unfold numSlotsForCapacity
  rw [if_neg (by omega)]

theorem numSlots_of_le (c : SACfg) (sz : Nat) (h : sz ≤ c.threshold) :
    numSlotsForCapacity c sz = sz := by
  unfold numSlotsForCapacity
  rw [if_pos h]

theorem slotIndex_lt_numSlots (c : SACfg) {i sz : Nat} (hT : c.threshold ≤ i) (h : i < sz) :
    c.threshold + toSegment c i < numSlotsForCapacity c sz := by
  rw [numSlots_of_gt c sz (by omega)]
  have := toSegment_mono c (show i ≤ sz - 1 by omega)
  omega

theorem mul_pred_div (L m : Nat) (hL : 0 < L) (hm : 0 < m) : (m * L - 1) / L = m - 1 := by
  obtain ⟨m', rfl⟩ : ∃ m', m = m' + 1 := ⟨m - 1, by omega⟩
  have h1 : (m' + 1) * L - 1 = (L - 1) + m' * L := by
    have : (m' + 1) * L = m' * L + L := by ring
    omega
  rw [h1, Nat.add_mul_div_right _ _ hL, Nat.div_eq_of_lt (by omega)]
  omega

theorem numSlots_capacityForSlots (c : SACfg) (n : Nat) (hL : 0 < c.segLen) :
    numSlotsForCapacity c (capacityForSlots c n) = n := by
  unfold capacityForSlots
  by_cases h : n ≤ c.threshold
  · rw [if_pos h, numSlots_of_le c n h]
  · rw [if_neg h]
    have hpos : 0 < (n - c.threshold) * c.segLen := Nat.mul_pos (by omega) hL
    rw [numSlots_of_gt c _ (by omega)]
    unfold toSegment
    have heq : c.threshold + (n - c.threshold) * c.segLen - 1 - c.threshold =
        (n - c.threshold) * c.segLen - 1 := by omega
    rw [heq, mul_pred_div c.segLen (n - c.threshold) hL (by omega)]
    omega

theorem capacityForSlots_numSlots_ge (c : SACfg) (x : Nat) (hL : 0 < c.segLen) :
    x ≤ capacityForSlots c (numSlotsForCapacity c x) := by
  by_cases h : x ≤ c.threshold
  · rw [numSlots_of_le c x h]
    unfold capacityForSlots
    rw [if_pos h]
  · rw [numSlots_of_gt c x (by omega)]
    unfold capacityForSlots
    rw [if_neg (by omega)]
    have hsub : c.threshold + toSegment c (x - 1) + 1 - c.threshold =
        toSegment c (x - 1) + 1 := by omega
    rw [hsub]
    have hd := Nat.div_add_mod (x - 1 - c.threshold) c.segLen
    have hm : (x - 1 - c.threshold) % c.segLen < c.segLen := Nat.mod_lt _ hL
    have hmul : (toSegment c (x - 1) + 1) * c.segLen =
        c.segLen * ((x - 1 - c.threshold) / c.segLen) + c.segLen := by
      unfold toSegment
      ring
    rw [hmul]
    omega

theorem capacityForSlots_numSlots_le (c : SACfg) (x : Nat) (hL : 0 < c.segLen) :
    capacityForSlots c (numSlotsForCapacity c x) ≤ x + c.segLen - 1 := by
  by_cases h : x ≤ c.threshold
  · rw [numSlots_of_le c x h]
    unfold capacityForSlots
    rw [if_pos h]
    omega
  · rw [numSlots_of_gt c x (by omega)]
    unfold capacityForSlots
    rw [if_neg (by omega)]
    have hsub : c.threshold + toSegment c (x - 1) + 1 - c.threshold =
        toSegment c (x - 1) + 1 := by omega
    rw [hsub]
    have hd := Nat.div_add_mod (x - 1 - c.threshold) c.segLen
    have hm : (x - 1 - c.threshold) % c.segLen < c.segLen := Nat.mod_lt _ hL
    have hmul : (toSegment c (x - 1) + 1) * c.segLen =
        c.segLen * ((x - 1 - c.threshold) / c.segLen) + c.segLen := by
      unfold toSegment
      ring
    rw [hmul]
    omega

theorem numSlots_le_self (c : SACfg) (x : Nat) : numSlotsForCapacity c x ≤ x := by
  by_cases h : x ≤ c.threshold
  · rw [numSlots_of_le c x h]
  · rw [numSlots_of_gt c x (by omega)]
    unfold toSegment
    have h1 : (x - 1 - c.threshold) / c.segLen ≤ x - 1 - c.threshold := Nat.div_le_self _ _
    omega

theorem numSlots_mono (c : SACfg) {x y : Nat} (h : x ≤ y) :
    numSlotsForCapacity c x ≤ numSlotsForCapacity c y := by
  by_cases hx : x ≤ c.threshold
  · by_cases hy : y ≤ c.threshold
    · rw [numSlots_of_le c x hx, numSlots_of_le c y hy]
      exact h
    · rw [numSlots_of_le c x hx, numSlots_of_gt c y (by omega)]
      omega
  · rw [numSlots_of_gt c x (by omega), numSlots_of_gt c y (by omega)]
    have := toSegment_mono c (show x - 1 ≤ y - 1 by omega)
    omega

theorem capacityForSlots_mono (c : SACfg) {x y : Nat} (h : x ≤ y) :
    capacityForSlots c x ≤ capacityForSlots c y := by
  unfold capacityForSlots
  by_cases hx : x ≤ c.threshold
  · by_cases hy : y ≤ c.threshold
    · rw [if_pos hx, if_pos hy]
      exact h
    · rw [if_pos hx, if_neg hy]
      omega
  · rw [if_neg hx, if_neg (by omega)]
    have := Nat.mul_le_mul_right c.segLen (show x - c.threshold ≤ y - c.threshold by omega)
    omega

end SegArr

namespace SegArr

theorem slotSegOK_iff (c : SACfg) (n k : Nat) (x : Option SlotVal) :
    slotSegOK c n k x = true ↔
      ∃ s, x = some (.seg s) ∧ 0 < s.length ∧ s.length ≤ c.segLen ∧
        (c.threshold + k + 1 < n → s.length = c.segLen) := by
  cases x with
  | none => simp [slotSegOK]
  | some sv =>
    cases sv with
    | hv v => simp [slotSegOK]
    | seg s =>
      simp only [slotSegOK, Bool.and_eq_true, Bool.or_eq_true, Bool.not_eq_eq_eq_not,
        Bool.not_true, decide_eq_true_eq, decide_eq_false_iff_not, Option.some.injEq,
        SlotVal.seg.injEq]
      constructor
      · rintro ⟨⟨h1, h2⟩, h3⟩
        exact ⟨s, rfl, h1, h2, fun hc => h3.elim (fun hn => absurd hc hn) id⟩
      · rintro ⟨s', hs', h1, h2, h3⟩
        subst hs'
        refine ⟨⟨h1, h2⟩, ?_⟩
        by_cases hc : c.threshold + k + 1 < n
        · exact Or.inr (h3 hc)
        · exact Or.inl hc

theorem WF_seg (c : SACfg) (a : SegmentedArray) (hWF : WF c a) {k : Nat}
    (hk : k < a.numSlotsUsed - c.threshold) :
    ∃ s, a.slots (c.threshold + k) = some (.seg s) ∧ 0 < s.length ∧ s.length ≤ c.segLen ∧
      (c.threshold + k + 1 < a.numSlotsUsed → s.length = c.segLen) :=
  (slotSegOK_iff c a.numSlotsUsed k _).mp (hWF.2 k hk)

theorem size_of_le (c : SACfg) (a : SegmentedArray) (h : a.numSlotsUsed ≤ c.threshold) :
    a.size c = a.numSlotsUsed := by
  unfold SegmentedArray.size
  rw [if_pos h]

theorem size_of_gt_seg (c : SACfg) (a : SegmentedArray) (s : Segment)
    (h : c.threshold < a.numSlotsUsed) (hs : a.slots (a.numSlotsUsed - 1) = some (.seg s)) :
    a.size c = c.threshold + (a.numSlotsUsed - c.threshold - 1) * c.segLen + s.length := by
  unfold SegmentedArray.size
  rw [if_neg (by omega), hs]

theorem WF_numSlotsUsed_eq (c : SACfg) (a : SegmentedArray) (hL : 0 < c.segLen)
    (hWF : WF c a) : a.numSlotsUsed = numSlotsForCapacity c (a.size c) := by
  by_cases h : a.numSlotsUsed ≤ c.threshold
  · rw [size_of_le c a h, numSlots_of_le c _ h]
  · obtain ⟨s, hs, hpos, hle, -⟩ :=
      WF_seg c a hWF (k := a.numSlotsUsed - c.threshold - 1) (by omega)
    have hidx : c.threshold + (a.numSlotsUsed - c.threshold - 1) = a.numSlotsUsed - 1 := by
      omega
    rw [hidx] at hs
    rw [size_of_gt_seg c a s (by omega) hs]
    rw [numSlots_of_gt c _ (by omega)]
    unfold toSegment
    have hsub : c.threshold + (a.numSlotsUsed - c.threshold - 1) * c.segLen + s.length - 1
        - c.threshold = (a.numSlotsUsed - c.threshold - 1) * c.segLen + (s.length - 1) := by
      omega
    rw [hsub]
    have hdiv : ((a.numSlotsUsed - c.threshold - 1) * c.segLen + (s.length - 1)) / c.segLen
        = a.numSlotsUsed - c.threshold - 1 := by
      rw [Nat.mul_comm, Nat.mul_add_div hL, Nat.div_eq_of_lt (by omega)]
      omega
    rw [hdiv]
    omega

theorem size_le_capacity (c : SACfg) (a : SegmentedArray) (hL : 0 < c.segLen)
    (hWF : WF c a) : a.size c ≤ a.capacity c := by
  have h1 : a.size c ≤ capacityForSlots c (numSlotsForCapacity c (a.size c)) :=
    capacityForSlots_numSlots_ge c _ hL
  rw [← WF_numSlotsUsed_eq c a hL hWF] at h1
  exact h1.trans (capacityForSlots_mono c hWF.1)

theorem seg_of_lt_size (c : SACfg) (a : SegmentedArray) (hL : 0 < c.segLen) (hWF : WF c a)
    {i : Nat} (hT : c.threshold ≤ i) (h : i < a.size c) :
    ∃ s, a.slots (c.threshold + toSegment c i) = some (.seg s) ∧ 0 < s.length ∧
      s.length ≤ c.segLen ∧
      (c.threshold + toSegment c i + 1 < a.numSlotsUsed → s.length = c.segLen) := by
  have hlt : c.threshold + toSegment c i < numSlotsForCapacity c (a.size c) :=
    slotIndex_lt_numSlots c hT h
  rw [← WF_numSlotsUsed_eq c a hL hWF] at hlt
  exact WF_seg c a hWF (by omega)

theorem seg_within (c : SACfg) (a : SegmentedArray) (hL : 0 < c.segLen) (hWF : WF c a)
    {i : Nat} (hT : c.threshold ≤ i) (h : i < a.size c) :
    ∃ s, a.slots (c.threshold + toSegment c i) = some (.seg s) ∧ toInterior c i < s.length := by
  obtain ⟨s, hs, hpos, hle, hfull⟩ := seg_of_lt_size c a hL hWF hT h
  by_cases hlast : c.threshold + toSegment c i + 1 < a.numSlotsUsed
  · exact ⟨s, hs, by rw [hfull hlast]; exact toInterior_lt c i hL⟩
  · have hlt : c.threshold + toSegment c i < a.numSlotsUsed := by
      have h2 := slotIndex_lt_numSlots c hT h
      rw [← WF_numSlotsUsed_eq c a hL hWF] at h2
      exact h2
    have hidx : a.numSlotsUsed - 1 = c.threshold + toSegment c i := by omega
    have hsz := size_of_gt_seg c a s (by omega) (by rw [hidx]; exact hs)
    have hdecomp := toSeg_toInt c i hL hT
    have hm : a.numSlotsUsed - c.threshold - 1 = toSegment c i := by omega
    rw [hm] at hsz
    exact ⟨s, hs, by omega⟩

theorem allocated_of_lt_size (c : SACfg) (a : SegmentedArray) (hL : 0 < c.segLen)
    (hWF : WF c a) {i : Nat} (h : i < a.size c) : allocated c a i := by
  by_cases hT : i < c.threshold
  · exact Or.inl hT
  · obtain ⟨s, hs, -⟩ := seg_of_lt_size c a hL hWF (by omega) h
    exact Or.inr ⟨s, hs⟩

theorem writeElemOpt_inline (c : SACfg) (a : SegmentedArray) (j : Nat) (ov : Option HV)
    (hj : j < c.threshold) :
    writeElemOpt c a j ov = { a with slots := updFn a.slots j (ov.map SlotVal.hv) } := by
  unfold writeElemOpt
  rw [if_pos hj]

theorem writeElemOpt_seg (c : SACfg) (a : SegmentedArray) (j : Nat) (ov : Option HV)
    (s : Segment) (hj : ¬ j < c.threshold)
    (hs : a.slots (c.threshold + toSegment c j) = some (.seg s)) :
    writeElemOpt c a j ov = { a with slots := updFn a.slots (c.threshold + toSegment c j) (some (.seg { s with data := updFn s.data (toInterior c j) ov })) } := by
  unfold writeElemOpt updateSegAt
  rw [if_neg hj, hs]

theorem writeElemOpt_noseg (c : SACfg) (a : SegmentedArray) (j : Nat) (ov : Option HV)
    (hj : ¬ j < c.threshold)
    (hs : ∀ s, a.slots (c.threshold + toSegment c j) ≠ some (.seg s)) :
    writeElemOpt c a j ov = a := by
  unfold writeElemOpt updateSegAt
  rw [if_neg hj]
  cases h : a.slots (c.threshold + toSegment c j) with
  | none => rfl
  | some sv =>
    cases sv with
    | hv v => rfl
    | seg s => exact absurd h (hs s)

theorem writeElemOpt_numSlotsUsed (c : SACfg) (a : SegmentedArray) (j : Nat) (ov : Option HV) :
    (writeElemOpt c a j ov).numSlotsUsed = a.numSlotsUsed := by
  by_cases hj : j < c.threshold
  · rw [writeElemOpt_inline c a j ov hj]
  · cases h : a.slots (c.threshold + toSegment c j) with
    | none => rw [writeElemOpt_noseg c a j ov hj (by intro s hs; rw [h] at hs; cases hs)]
    | some sv =>
      cases sv with
      | hv v => rw [writeElemOpt_noseg c a j ov hj (by intro s hs; rw [h] at hs; cases hs)]
      | seg s => rw [writeElemOpt_seg c a j ov s hj h]

theorem writeElemOpt_slotCapacity (c : SACfg) (a : SegmentedArray) (j : Nat) (ov : Option HV) :
    (writeElemOpt c a j ov).slotCapacity = a.slotCapacity := by
  by_cases hj : j < c.threshold
  · rw [writeElemOpt_inline c a j ov hj]
  · cases h : a.slots (c.threshold + toSegment c j) with
    | none => rw [writeElemOpt_noseg c a j ov hj (by intro s hs; rw [h] at hs; cases hs)]
    | some sv =>
      cases sv with
      | hv v => rw [writeElemOpt_noseg c a j ov hj (by intro s hs; rw [h] at hs; cases hs)]
      | seg s => rw [writeElemOpt_seg c a j ov s hj h]

end SegArr

namespace SegArr

theorem updFn_self {α : Type} (f : Nat → α) (j : Nat) (v : α) : updFn f j v j = v := by
  simp [updFn]

theorem updFn_ne {α : Type} (f : Nat → α) {i j : Nat} (v : α) (h : i ≠ j) :
    updFn f j v i = f i := by
  simp [updFn, h]

theorem fillFn_in {α : Type} (f : Nat → α) (lo hi : Nat) (v : α) {i : Nat}
    (h1 : lo ≤ i) (h2 : i < hi) : fillFn f lo hi v i = v := by
  simp [fillFn, h1, h2]

theorem fillFn_out {α : Type} (f : Nat → α) (lo hi : Nat) (v : α) {i : Nat}
    (h : i < lo ∨ hi ≤ i) : fillFn f lo hi v i = f i := by
  unfold fillFn
  rw [if_neg (by omega)]

theorem writeElemOpt_slots_inline (c : SACfg) (a : SegmentedArray) (j : Nat) (ov : Option HV)
    (hj : j < c.threshold) (x : Nat) :
    (writeElemOpt c a j ov).slots x = updFn a.slots j (ov.map SlotVal.hv) x := by
  rw [writeElemOpt_inline c a j ov hj]

theorem writeElemOpt_slots_seg (c : SACfg) (a : SegmentedArray) (j : Nat) (ov : Option HV)
    (s : Segment) (hj : ¬ j < c.threshold)
    (hs : a.slots (c.threshold + toSegment c j) = some (.seg s)) (x : Nat) :
    (writeElemOpt c a j ov).slots x = updFn a.slots (c.threshold + toSegment c j) (some (.seg { s with data := updFn s.data (toInterior c j) ov })) x := by
  rw [writeElemOpt_seg c a j ov s hj hs]

theorem atIdx_writeElemOpt_self (c : SACfg) (a : SegmentedArray) (i : Nat) (ov : Option HV)
    (hAlloc : allocated c a i) : atIdx c (writeElemOpt c a i ov) i = ov := by
  by_cases hi : i < c.threshold
  · unfold atIdx
    rw [if_pos hi, writeElemOpt_slots_inline c a i ov hi, updFn_self]
    cases ov <;> rfl
  · rcases hAlloc with h | ⟨s, hs⟩
    · omega
    · unfold atIdx
      rw [if_neg hi, writeElemOpt_slots_seg c a i ov s hi hs, updFn_self]
      show updFn s.data (toInterior c i) ov (toInterior c i) = ov
      rw [updFn_self]

theorem atIdx_writeElemOpt_ne (c : SACfg) (hL : 0 < c.segLen) (a : SegmentedArray)
    {i j : Nat} (ov : Option HV) (hij : i ≠ j) :
    atIdx c (writeElemOpt c a j ov) i = atIdx c a i := by
  by_cases hj : j < c.threshold
  · unfold atIdx
    by_cases hi : i < c.threshold
    · rw [if_pos hi, if_pos hi, writeElemOpt_slots_inline c a j ov hj, updFn_ne _ _ hij]
    · rw [if_neg hi, if_neg hi, writeElemOpt_slots_inline c a j ov hj,
        updFn_ne _ _ (by omega)]
  · cases hsl : a.slots (c.threshold + toSegment c j) with
    | none => rw [writeElemOpt_noseg c a j ov hj (by intro s hs; rw [hsl] at hs; cases hs)]
    | some sv =>
      cases sv with
      | hv v => rw [writeElemOpt_noseg c a j ov hj (by intro s hs; rw [hsl] at hs; cases hs)]
      | seg s =>
        unfold atIdx
        by_cases hi : i < c.threshold
        · rw [if_pos hi, if_pos hi, writeElemOpt_slots_seg c a j ov s hj hsl,
            updFn_ne _ _ (by omega)]
        · rw [if_neg hi, if_neg hi, writeElemOpt_slots_seg c a j ov s hj hsl]
          by_cases hseg : toSegment c i = toSegment c j
          · rw [hseg, updFn_self, hsl]
            show updFn s.data (toInterior c j) ov (toInterior c i) = s.data (toInterior c i)
            exact updFn_ne _ _
              (fun he => hij (elem_index_inj c hL (by omega) (by omega) hseg he))
          · rw [updFn_ne _ _ (by intro he; exact hseg (by omega))]

theorem writeElemOpt_size (c : SACfg) (a : SegmentedArray) (j : Nat) (ov : Option HV) :
    (writeElemOpt c a j ov).size c = a.size c := by
  unfold SegmentedArray.size
  rw [writeElemOpt_numSlotsUsed]
  by_cases h : a.numSlotsUsed ≤ c.threshold
  · rw [if_pos h, if_pos h]
  · rw [if_neg h, if_neg h]
    by_cases hj : j < c.threshold
    · rw [writeElemOpt_slots_inline c a j ov hj, updFn_ne _ _ (by omega)]
    · cases hsl : a.slots (c.threshold + toSegment c j) with
      | none => rw [writeElemOpt_noseg c a j ov hj (by intro s hs; rw [hsl] at hs; cases hs)]
      | some sv =>
        cases sv with
        | hv v =>
          rw [writeElemOpt_noseg c a j ov hj (by intro s hs; rw [hsl] at hs; cases hs)]
        | seg s =>
          rw [writeElemOpt_slots_seg c a j ov s hj hsl]
          by_cases he : a.numSlotsUsed - 1 = c.threshold + toSegment c j
          · rw [he, updFn_self, hsl]
          · rw [updFn_ne _ _ he]

theorem WF_writeElemOpt (c : SACfg) (a : SegmentedArray) (j : Nat) (ov : Option HV)
    (hWF : WF c a) : WF c (writeElemOpt c a j ov) := by
  obtain ⟨h1, h2⟩ := hWF
  constructor
  · rw [writeElemOpt_numSlotsUsed, writeElemOpt_slotCapacity]
    exact h1
  · intro k hk
    rw [writeElemOpt_numSlotsUsed] at hk ⊢
    by_cases hj : j < c.threshold
    · rw [writeElemOpt_slots_inline c a j ov hj, updFn_ne _ _ (by omega)]
      exact h2 k hk
    · cases hsl : a.slots (c.threshold + toSegment c j) with
      | none =>
        rw [writeElemOpt_noseg c a j ov hj (by intro s hs; rw [hsl] at hs; cases hs)]
        exact h2 k hk
      | some sv =>
        cases sv with
        | hv v =>
          rw [writeElemOpt_noseg c a j ov hj (by intro s hs; rw [hsl] at hs; cases hs)]
          exact h2 k hk
        | seg s =>
          rw [writeElemOpt_slots_seg c a j ov s hj hsl]
          by_cases he : c.threshold + k = c.threshold + toSegment c j
          · rw [he, updFn_self]
            have h3 := h2 k hk
            rw [he, hsl] at h3
            simp only [slotSegOK] at h3 ⊢
            exact h3
          · rw [updFn_ne _ _ he]
            exact h2 k hk

theorem allocated_writeElemOpt (c : SACfg) (a : SegmentedArray) (j : Nat) (ov : Option HV)
    {i : Nat} (h : allocated c a i) : allocated c (writeElemOpt c a j ov) i := by
  rcases h with h | ⟨s, hs⟩
  · exact Or.inl h
  · by_cases hj : j < c.threshold
    · exact Or.inr ⟨s, by
        rw [writeElemOpt_slots_inline c a j ov hj, updFn_ne _ _ (by omega)]
        exact hs⟩
    · cases hsl : a.slots (c.threshold + toSegment c j) with
      | none =>
        rw [writeElemOpt_noseg c a j ov hj (by intro s' hs'; rw [hsl] at hs'; cases hs')]
        exact Or.inr ⟨s, hs⟩
      | some sv =>
        cases sv with
        | hv v =>
          rw [writeElemOpt_noseg c a j ov hj (by intro s' hs'; rw [hsl] at hs'; cases hs')]
          exact Or.inr ⟨s, hs⟩
        | seg s2 =>
          by_cases he : c.threshold + toSegment c i = c.threshold + toSegment c j
          · exact Or.inr ⟨{ s2 with data := updFn s2.data (toInterior c j) ov }, by
              rw [writeElemOpt_slots_seg c a j ov s2 hj hsl, he, updFn_self]⟩
          · refine Or.inr ⟨s, ?_⟩
            rw [writeElemOpt_slots_seg c a j ov s2 hj hsl, updFn_ne _ _ he]
            exact hs

end SegArr

namespace SegArr

theorem fillElems_spec (c : SACfg) (hL : 0 < c.segLen) (n : Nat) :
    ∀ (a : SegmentedArray) (lo : Nat),
      (∀ k, lo ≤ k → k < lo + n → allocated c a k) →
      ((∀ k, lo ≤ k → k < lo + n → atIdx c (fillElems c a lo n) k = some HV.empty) ∧
       (∀ i, i < lo ∨ lo + n ≤ i → atIdx c (fillElems c a lo n) i = atIdx c a i) ∧
       (fillElems c a lo n).size c = a.size c ∧
       (fillElems c a lo n).numSlotsUsed = a.numSlotsUsed ∧
       (fillElems c a lo n).slotCapacity = a.slotCapacity ∧
       (∀ i, allocated c a i → allocated c (fillElems c a lo n) i) ∧
       (WF c a → WF c (fillElems c a lo n))) := by
  induction n with
  | zero =>
    intro a lo _
    exact ⟨fun k h1 h2 => absurd h2 (by omega), fun i _ => rfl, rfl, rfl, rfl,
      fun i h => h, id⟩
  | succ n ih =>
    intro a lo hAlloc
    have heq : fillElems c a lo (n + 1) =
        fillElems c (writeElemOpt c a lo (some HV.empty)) (lo + 1) n := rfl
    rw [heq]
    have ha1 : allocated c a lo := hAlloc lo le_rfl (by omega)
    obtain ⟨ih1, ih2, ih3, ih4, ih5, ih6, ih7⟩ :=
      ih (writeElemOpt c a lo (some HV.empty)) (lo + 1)
        (fun k h1 h2 => allocated_writeElemOpt c a lo _ (hAlloc k (by omega) (by omega)))
    refine ⟨fun k h1 h2 => ?_, fun i hi => ?_, ?_, ?_, ?_, fun i h => ?_, fun h => ?_⟩
    · by_cases hk : k = lo
      · subst hk
        rw [ih2 k (Or.inl (by omega))]
        exact atIdx_writeElemOpt_self c a k _ ha1
      · exact ih1 k (by omega) (by omega)
    · rw [ih2 i (by omega)]
      exact atIdx_writeElemOpt_ne c hL a _ (by omega)
    · rw [ih3, writeElemOpt_size]
    · rw [ih4, writeElemOpt_numSlotsUsed]
    · rw [ih5, writeElemOpt_slotCapacity]
    · exact ih6 i (allocated_writeElemOpt c a lo _ h)
    · exact ih7 (WF_writeElemOpt c a lo _ h)

theorem copyBackwardSame_spec (c : SACfg) (hL : 0 < c.segLen) (amount : Nat) (n : Nat) :
    ∀ (a : SegmentedArray),
      (∀ k, k < n → allocated c a (amount + k)) →
      ((∀ j, j < n → atIdx c (copyBackwardSame c amount a n) (amount + j) = atIdx c a j) ∧
       (∀ i, i < amount ∨ amount + n ≤ i →
         atIdx c (copyBackwardSame c amount a n) i = atIdx c a i) ∧
       (copyBackwardSame c amount a n).size c = a.size c ∧
       (copyBackwardSame c amount a n).numSlotsUsed = a.numSlotsUsed ∧
       (copyBackwardSame c amount a n).slotCapacity = a.slotCapacity ∧
       (∀ i, allocated c a i → allocated c (copyBackwardSame c amount a n) i) ∧
       (WF c a → WF c (copyBackwardSame c amount a n))) := by
  induction n with
  | zero =>
    intro a _
    exact ⟨fun j hj => absurd hj (by omega), fun i _ => rfl, rfl, rfl, rfl, fun i h => h, id⟩
  | succ n ih =>
    intro a hAlloc
    have heq : copyBackwardSame c amount a (n + 1) =
        copyBackwardSame c amount (writeElemOpt c a (amount + n) (atIdx c a n)) n := rfl
    rw [heq]
    obtain ⟨ih1, ih2, ih3, ih4, ih5, ih6, ih7⟩ :=
      ih (writeElemOpt c a (amount + n) (atIdx c a n))
        (fun k hk => allocated_writeElemOpt c a _ _ (hAlloc k (by omega)))
    refine ⟨fun j hj => ?_, fun i hi => ?_, ?_, ?_, ?_, fun i h => ?_, fun h => ?_⟩
    · by_cases hjn : j = n
      · subst hjn
        rw [ih2 (amount + j) (Or.inr (by omega))]
        rw [atIdx_writeElemOpt_self c a (amount + j) _ (hAlloc j (by omega))]
      · rw [ih1 j (by omega)]
        exact atIdx_writeElemOpt_ne c hL a _ (by omega)
    · rw [ih2 i (by omega)]
      exact atIdx_writeElemOpt_ne c hL a _ (by omega)
    · rw [ih3, writeElemOpt_size]
    · rw [ih4, writeElemOpt_numSlotsUsed]
    · rw [ih5, writeElemOpt_slotCapacity]
    · exact ih6 i (allocated_writeElemOpt c a _ _ h)
    · exact ih7 (WF_writeElemOpt c a _ _ h)

theorem copyAcross_spec (c : SACfg) (hL : 0 < c.segLen) (src : SegmentedArray) (n : Nat) :
    ∀ (dst : SegmentedArray) (sIdx dIdx : Nat),
      (∀ k, k < n → allocated c dst (dIdx + k)) →
      ((∀ j, j < n →
         atIdx c (copyAcross c src dst sIdx dIdx n) (dIdx + j) = atIdx c src (sIdx + j)) ∧
       (∀ i, i < dIdx ∨ dIdx + n ≤ i →
         atIdx c (copyAcross c src dst sIdx dIdx n) i = atIdx c dst i) ∧
       (copyAcross c src dst sIdx dIdx n).size c = dst.size c ∧
       (copyAcross c src dst sIdx dIdx n).numSlotsUsed = dst.numSlotsUsed ∧
       (copyAcross c src dst sIdx dIdx n).slotCapacity = dst.slotCapacity ∧
       (∀ i, allocated c dst i → allocated c (copyAcross c src dst sIdx dIdx n) i) ∧
       (WF c dst → WF c (copyAcross c src dst sIdx dIdx n))) := by
  induction n with
  | zero =>
    intro dst sIdx dIdx _
    exact ⟨fun j hj => absurd hj (by omega), fun i _ => rfl, rfl, rfl, rfl, fun i h => h, id⟩
  | succ n ih =>
    intro dst sIdx dIdx hAlloc
    have heq : copyAcross c src dst sIdx dIdx (n + 1) =
        copyAcross c src (writeElemOpt c dst dIdx (atIdx c src sIdx)) (sIdx + 1) (dIdx + 1) n :=
      rfl
    rw [heq]
    obtain ⟨ih1, ih2, ih3, ih4, ih5, ih6, ih7⟩ :=
      ih (writeElemOpt c dst dIdx (atIdx c src sIdx)) (sIdx + 1) (dIdx + 1)
        (fun k hk => by
          have h := allocated_writeElemOpt c dst dIdx (atIdx c src sIdx)
            (hAlloc (k + 1) (by omega))
          rwa [show dIdx + (k + 1) = dIdx + 1 + k from by omega] at h)
    refine ⟨fun j hj => ?_, fun i hi => ?_, ?_, ?_, ?_, fun i h => ?_, fun h => ?_⟩
    · rcases Nat.eq_zero_or_pos j with hj0 | hj0
      · subst hj0
        have h2 := ih2 (dIdx + 0) (Or.inl (by omega))
        rw [h2]
        simp only [Nat.add_zero]
        exact atIdx_writeElemOpt_self c dst dIdx _ (by simpa using hAlloc 0 (by omega))
      · obtain ⟨j', rfl⟩ : ∃ j', j = j' + 1 := ⟨j - 1, by omega⟩
        have h1 := ih1 j' (by omega)
        rw [show dIdx + (j' + 1) = dIdx + 1 + j' from by omega,
          show sIdx + (j' + 1) = sIdx + 1 + j' from by omega]
        exact h1
    · rw [ih2 i (by omega)]
      exact atIdx_writeElemOpt_ne c hL dst _ (by omega)
    · rw [ih3, writeElemOpt_size]
    · rw [ih4, writeElemOpt_numSlotsUsed]
    · rw [ih5, writeElemOpt_slotCapacity]
    · exact ih6 i (allocated_writeElemOpt c dst _ _ h)
    · exact ih7 (WF_writeElemOpt c dst _ _ h)

end SegArr

namespace SegArr

theorem updateSegAt_slots_ne (c : SACfg) (a : SegmentedArray) (k : Nat) (f : Segment → Segment)
    {j : Nat} (h : j ≠ c.threshold + k) : (updateSegAt c a k f).slots j = a.slots j := by
  unfold updateSegAt
  cases hs : a.slots (c.threshold + k) with
  | none => rfl
  | some sv =>
    cases sv with
    | hv v => rfl
    | seg s => exact updFn_ne _ _ h

theorem updateSegAt_slots_self (c : SACfg) (a : SegmentedArray) (k : Nat)
    (f : Segment → Segment) :
    (updateSegAt c a k f).slots (c.threshold + k) =
      (match a.slots (c.threshold + k) with
        | some (.seg s) => some (.seg (f s))
        | x => x) := by
  unfold updateSegAt
  cases hs : a.slots (c.threshold + k) with
  | none => rw [hs]
  | some sv =>
    cases sv with
    | hv v => rw [hs]
    | seg s => exact updFn_self _ _ _

theorem updateSegAt_meta (c : SACfg) (a : SegmentedArray) (k : Nat) (f : Segment → Segment) :
    (updateSegAt c a k f).numSlotsUsed = a.numSlotsUsed ∧
      (updateSegAt c a k f).slotCapacity = a.slotCapacity := by
  unfold updateSegAt
  cases a.slots (c.threshold + k) with
  | none => exact ⟨rfl, rfl⟩
  | some sv =>
    cases sv with
    | hv v => exact ⟨rfl, rfl⟩
    | seg s => exact ⟨rfl, rfl⟩

theorem allocSegsFrom_slots (c : SACfg) (n : Nat) :
    ∀ (a : SegmentedArray) (i j : Nat),
      (allocSegsFrom c a i n).slots j =
        if c.threshold + i ≤ j ∧ j < c.threshold + i + n
        then some (.seg ⟨0, fun _ => none⟩) else a.slots j := by
  induction n with
  | zero =>
    intro a i j
    have heq : allocSegsFrom c a i 0 = a := rfl
    rw [heq, if_neg (by omega)]
  | succ n ih =>
    intro a i j
    have heq : allocSegsFrom c a i (n + 1) = allocSegsFrom c (allocateSegment c a i) (i + 1) n :=
      rfl
    rw [heq, ih]
    by_cases h1 : c.threshold + (i + 1) ≤ j ∧ j < c.threshold + (i + 1) + n
    · rw [if_pos h1, if_pos (by omega)]
    · rw [if_neg h1]
      unfold allocateSegment
      by_cases h2 : j = c.threshold + i
      · subst h2
        rw [if_pos (by omega)]
        exact updFn_self _ _ _
      · rw [if_neg (by omega)]
        exact updFn_ne _ _ h2

theorem allocSegsFrom_meta (c : SACfg) (n : Nat) :
    ∀ (a : SegmentedArray) (i : Nat),
      (allocSegsFrom c a i n).numSlotsUsed = a.numSlotsUsed ∧
        (allocSegsFrom c a i n).slotCapacity = a.slotCapacity := by
  induction n with
  | zero => intro a i; exact ⟨rfl, rfl⟩
  | succ n ih =>
    intro a i
    have heq : allocSegsFrom c a i (n + 1) = allocSegsFrom c (allocateSegment c a i) (i + 1) n :=
      rfl
    rw [heq]
    exact ih (allocateSegment c a i) (i + 1)

theorem setSegLengths_slots (c : SACfg) (Fill : Bool) (fS last : Nat) (n : Nat) :
    ∀ (a : SegmentedArray) (i j : Nat),
      (setSegLengths c Fill fS last a i n).slots j =
        if c.threshold + i ≤ j ∧ j < c.threshold + i + n
        then applySetLen c Fill (segNewLen c fS last (j - c.threshold)) (a.slots j)
        else a.slots j := by
  induction n with
  | zero =>
    intro a i j
    have heq : setSegLengths c Fill fS last a i 0 = a := rfl
    rw [heq, if_neg (by omega)]
  | succ n ih =>
    intro a i j
    have heq : setSegLengths c Fill fS last a i (n + 1) =
        setSegLengths c Fill fS last
          (updateSegAt c a i (fun s =>
            if Fill then s.setLength (segNewLen c fS last i)
            else s.setLengthWithoutFilling (segNewLen c fS last i))) (i + 1) n := rfl
    rw [heq, ih]
    by_cases h1 : c.threshold + (i + 1) ≤ j ∧ j < c.threshold + (i + 1) + n
    · rw [if_pos h1, if_pos (by omega), updateSegAt_slots_ne c a i _ (by omega)]
    · rw [if_neg h1]
      by_cases h2 : j = c.threshold + i
      · subst h2
        rw [if_pos (by omega), updateSegAt_slots_self,
          show c.threshold + i - c.threshold = i from by omega]
        cases hs : a.slots (c.threshold + i) with
        | none => rfl
        | some sv =>
          cases sv with
          | hv v => rfl
          | seg s => rfl
      · rw [if_neg (by omega), updateSegAt_slots_ne c a i _ h2]

theorem setSegLengths_meta (c : SACfg) (Fill : Bool) (fS last : Nat) (n : Nat) :
    ∀ (a : SegmentedArray) (i : Nat),
      (setSegLengths c Fill fS last a i n).numSlotsUsed = a.numSlotsUsed ∧
        (setSegLengths c Fill fS last a i n).slotCapacity = a.slotCapacity := by
  induction n with
  | zero => intro a i; exact ⟨rfl, rfl⟩
  | succ n ih =>
    intro a i
    have heq : setSegLengths c Fill fS last a i (n + 1) =
        setSegLengths c Fill fS last
          (updateSegAt c a i (fun s =>
            if Fill then s.setLength (segNewLen c fS last i)
            else s.setLengthWithoutFilling (segNewLen c fS last i))) (i + 1) n := rfl
    rw [heq]
    obtain ⟨hm1, hm2⟩ := updateSegAt_meta c a i (fun s =>
      if Fill then s.setLength (segNewLen c fS last i)
      else s.setLengthWithoutFilling (segNewLen c fS last i))
    obtain ⟨hi1, hi2⟩ := ih (updateSegAt c a i _) (i + 1)
    exact ⟨hi1.trans hm1, hi2.trans hm2⟩

end SegArr

namespace SegArr

theorem incSize_inline (c : SACfg) (Fill : Bool) (a : SegmentedArray) (amount : Nat)
    (h1 : a.size c ≤ c.threshold) (h2 : a.size c + amount ≤ c.threshold) :
    (increaseSize c Fill a amount).numSlotsUsed = a.size c + amount ∧
    (increaseSize c Fill a amount).slotCapacity = a.slotCapacity ∧
    ∀ j, (increaseSize c Fill a amount).slots j =
      if Fill = true ∧ a.size c ≤ j ∧ j < a.size c + amount
      then some (.hv HV.empty) else a.slots j := by
  have hbody : increaseSize c Fill a amount =
      { (if Fill then
          { a with
            slots := fillFn a.slots (a.size c) (a.size c + amount) (some (.hv HV.empty)) }
        else a) with
        numSlotsUsed := a.size c + amount } := by
    unfold increaseSize
    rw [if_pos ⟨h1, h2⟩]
  rw [hbody]
  refine ⟨rfl, ?_, fun j => ?_⟩
  · cases Fill <;> rfl
  · cases Fill with
    | false =>
      rw [if_neg (by simp)]
      rfl
    | true =>
      show fillFn a.slots (a.size c) (a.size c + amount) (some (.hv HV.empty)) j = _
      unfold fillFn
      by_cases h : a.size c ≤ j ∧ j < a.size c + amount
      · rw [if_pos h, if_pos ⟨rfl, h.1, h.2⟩]
      · rw [if_neg h, if_neg (by intro hc; exact h ⟨hc.2.1, hc.2.2⟩)]

theorem incStep1_of_le (c : SACfg) (a : SegmentedArray) (currSize : Nat)
    (h : currSize ≤ c.threshold) :
    incStep1 c a currSize =
      { a with slots := fillFn a.slots currSize c.threshold (some (.hv HV.empty)),
               numSlotsUsed := c.threshold } := by
  unfold incStep1
  rw [if_pos h]

theorem incStep1_of_gt (c : SACfg) (a : SegmentedArray) (currSize : Nat)
    (h : ¬ currSize ≤ c.threshold) : incStep1 c a currSize = a := by
  unfold incStep1
  rw [if_neg h]

theorem incStep3_of_empty (c : SACfg) (a : SegmentedArray) (startSegment lastSegment : Nat)
    (h1 : startSegment ≤ lastSegment)
    (h2 : isEmptyHV (a.slots (c.threshold + startSegment)) = true) :
    incStep3 c a startSegment lastSegment = allocateSegment c a startSegment := by
  unfold incStep3
  rw [if_pos ⟨h1, h2⟩]

theorem incStep3_of_seg (c : SACfg) (a : SegmentedArray) (startSegment lastSegment : Nat)
    (s : Segment) (h : a.slots (c.threshold + startSegment) = some (.seg s)) :
    incStep3 c a startSegment lastSegment = a := by
  unfold incStep3
  rw [if_neg (by rw [h]; simp [isEmptyHV])]

theorem allocateSegment_slots (c : SACfg) (a : SegmentedArray) (k : Nat) (j : Nat) :
    (allocateSegment c a k).slots j =
      if j = c.threshold + k then some (.seg ⟨0, fun _ => none⟩) else a.slots j := by
  unfold allocateSegment
  show updFn a.slots (c.threshold + k) (some (.seg ⟨0, fun _ => none⟩)) j = _
  unfold updFn
  rfl

end SegArr

namespace SegArr

theorem incSize_lo (c : SACfg) (Fill : Bool) (a : SegmentedArray) (amount : Nat)
    (_hL : 0 < c.segLen) (h1 : a.size c ≤ c.threshold) (h2 : c.threshold < a.size c + amount) :
    (increaseSize c Fill a amount).numSlotsUsed = numSlotsForCapacity c (a.size c + amount) ∧
    (increaseSize c Fill a amount).slotCapacity = a.slotCapacity ∧
    (∀ j, j < a.size c → (increaseSize c Fill a amount).slots j = a.slots j) ∧
    (∀ j, a.size c ≤ j → j < c.threshold →
      (increaseSize c Fill a amount).slots j = some (.hv HV.empty)) ∧
    (∀ j, c.threshold ≤ j → j < numSlotsForCapacity c (a.size c + amount) →
      (increaseSize c Fill a amount).slots j =
        applySetLen c Fill
          (segNewLen c (a.size c + amount) (toSegment c (a.size c + amount - 1))
            (j - c.threshold))
          (some (.seg ⟨0, fun _ => none⟩))) ∧
    (∀ j, numSlotsForCapacity c (a.size c + amount) ≤ j →
      (increaseSize c Fill a amount).slots j = a.slots j) := by
  have hN2gt : numSlotsForCapacity c (a.size c + amount) =
      c.threshold + toSegment c (a.size c + amount - 1) + 1 := numSlots_of_gt c _ h2
  have hbody : increaseSize c Fill a amount =
      setSegLengths c Fill (a.size c + amount) (toSegment c (a.size c + amount - 1))
        (allocSegsFrom c
          (incStep3 c (incStep2 c (incStep1 c a (a.size c))
            (numSlotsForCapacity c (a.size c + amount)))
            0 (toSegment c (a.size c + amount - 1)))
          1 (toSegment c (a.size c + amount - 1)))
        0 (toSegment c (a.size c + amount - 1) + 1) := by
    unfold increaseSize
    rw [if_neg (by omega), if_pos h1]
    simp only [Nat.zero_add, Nat.sub_zero]
  have hA2 : incStep2 c (incStep1 c a (a.size c)) (numSlotsForCapacity c (a.size c + amount)) =
      { a with
        slots := fillFn (fillFn a.slots (a.size c) c.threshold (some (.hv HV.empty)))
          c.threshold (numSlotsForCapacity c (a.size c + amount)) (some (.hv HV.empty)),
        numSlotsUsed := numSlotsForCapacity c (a.size c + amount) } := by
    rw [incStep1_of_le c a _ h1]
    rfl
  have hstep3 : incStep3 c (incStep2 c (incStep1 c a (a.size c))
        (numSlotsForCapacity c (a.size c + amount)))
      0 (toSegment c (a.size c + amount - 1)) =
      allocateSegment c (incStep2 c (incStep1 c a (a.size c))
        (numSlotsForCapacity c (a.size c + amount))) 0 := by
    refine incStep3_of_empty c _ 0 _ (by omega) ?_
    rw [hA2]
    show isEmptyHV (fillFn (fillFn a.slots (a.size c) c.threshold (some (.hv HV.empty)))
      c.threshold (numSlotsForCapacity c (a.size c + amount)) (some (.hv HV.empty))
      (c.threshold + 0)) = true
    simp only [Nat.add_zero]
    rw [fillFn_in _ _ _ _ le_rfl (by omega)]
    rfl
  have hinner : ∀ j,
      (allocSegsFrom c (allocateSegment c (incStep2 c (incStep1 c a (a.size c))
          (numSlotsForCapacity c (a.size c + amount))) 0)
        1 (toSegment c (a.size c + amount - 1))).slots j =
      if c.threshold ≤ j ∧ j < numSlotsForCapacity c (a.size c + amount)
      then some (.seg ⟨0, fun _ => none⟩)
      else if a.size c ≤ j ∧ j < c.threshold then some (.hv HV.empty)
      else a.slots j := by
    intro j
    rw [allocSegsFrom_slots c _ _ 1 j, allocateSegment_slots]
    by_cases hj1 : c.threshold ≤ j ∧ j < numSlotsForCapacity c (a.size c + amount)
    · rw [if_pos hj1]
      by_cases hjT : j = c.threshold
      · rw [if_neg (by omega), if_pos (by omega)]
      · rw [if_pos (by omega)]
    · rw [if_neg hj1, if_neg (by omega), if_neg (by omega), hA2]
      show fillFn (fillFn a.slots (a.size c) c.threshold (some (.hv HV.empty))) c.threshold
        (numSlotsForCapacity c (a.size c + amount)) (some (.hv HV.empty)) j = _
      rw [fillFn_out _ _ _ _ (by omega)]
      by_cases hj2 : a.size c ≤ j ∧ j < c.threshold
      · rw [fillFn_in _ _ _ _ hj2.1 hj2.2, if_pos hj2]
      · rw [fillFn_out _ _ _ _ (by omega), if_neg hj2]
  rw [hbody, hstep3]
  refine ⟨?_, ?_, fun j hj => ?_, fun j hj1 hj2 => ?_, fun j hj1 hj2 => ?_, fun j hj => ?_⟩
  · rw [(setSegLengths_meta c Fill (a.size c + amount)
      (toSegment c (a.size c + amount - 1)) (toSegment c (a.size c + amount - 1) + 1) _ 0).1]
    rw [(allocSegsFrom_meta c (toSegment c (a.size c + amount - 1)) _ 1).1]
    rw [hA2]
    rfl
  · rw [(setSegLengths_meta c Fill (a.size c + amount)
      (toSegment c (a.size c + amount - 1)) (toSegment c (a.size c + amount - 1) + 1) _ 0).2]
    rw [(allocSegsFrom_meta c (toSegment c (a.size c + amount - 1)) _ 1).2]
    rw [hA2]
    rfl
  · rw [setSegLengths_slots]
    simp only [Nat.add_zero]
    rw [if_neg (by omega), hinner j, if_neg (by omega), if_neg (by omega)]
  · rw [setSegLengths_slots]
    simp only [Nat.add_zero]
    rw [if_neg (by omega), hinner j, if_neg (by omega), if_pos ⟨hj1, hj2⟩]
  · rw [setSegLengths_slots]
    simp only [Nat.add_zero]
    rw [if_pos (by omega), hinner j, if_pos ⟨hj1, hj2⟩]
  · rw [setSegLengths_slots]
    simp only [Nat.add_zero]
    rw [if_neg (by omega), hinner j, if_neg (by omega), if_neg (by omega)]

end SegArr

namespace SegArr

theorem incSize_hi (c : SACfg) (Fill : Bool) (a : SegmentedArray) (amount : Nat)
    (hL : 0 < c.segLen) (hWF : WF c a) (h1 : c.threshold < a.size c) :
    (increaseSize c Fill a amount).numSlotsUsed = numSlotsForCapacity c (a.size c + amount) ∧
    (increaseSize c Fill a amount).slotCapacity = a.slotCapacity ∧
    (∀ j, j < a.numSlotsUsed - 1 → (increaseSize c Fill a amount).slots j = a.slots j) ∧
    ((increaseSize c Fill a amount).slots (a.numSlotsUsed - 1) =
      applySetLen c Fill
        (segNewLen c (a.size c + amount) (toSegment c (a.size c + amount - 1))
          (toSegment c (a.size c - 1)))
        (a.slots (a.numSlotsUsed - 1))) ∧
    (∀ j, a.numSlotsUsed ≤ j → j < numSlotsForCapacity c (a.size c + amount) →
      (increaseSize c Fill a amount).slots j =
        applySetLen c Fill
          (segNewLen c (a.size c + amount) (toSegment c (a.size c + amount - 1))
            (j - c.threshold))
          (some (.seg ⟨0, fun _ => none⟩))) ∧
    (∀ j, numSlotsForCapacity c (a.size c + amount) ≤ j →
      (increaseSize c Fill a amount).slots j = a.slots j) := by
  have hcs : ¬ a.size c ≤ c.threshold := by omega
  have hnU : a.numSlotsUsed = numSlotsForCapacity c (a.size c) := WF_numSlotsUsed_eq c a hL hWF
  have hnUeq : a.numSlotsUsed = c.threshold + toSegment c (a.size c - 1) + 1 := by
    rw [hnU, numSlots_of_gt c _ h1]
  have hN2 : numSlotsForCapacity c (a.size c + amount) =
      c.threshold + toSegment c (a.size c + amount - 1) + 1 := numSlots_of_gt c _ (by omega)
  have hsl : toSegment c (a.size c - 1) ≤ toSegment c (a.size c + amount - 1) :=
    toSegment_mono c (by omega)
  have hbody : increaseSize c Fill a amount =
      setSegLengths c Fill (a.size c + amount) (toSegment c (a.size c + amount - 1))
        (allocSegsFrom c
          (incStep3 c (incStep2 c a (numSlotsForCapacity c (a.size c + amount)))
            (toSegment c (a.size c - 1)) (toSegment c (a.size c + amount - 1)))
          (toSegment c (a.size c - 1) + 1)
          (toSegment c (a.size c + amount - 1) - toSegment c (a.size c - 1)))
        (toSegment c (a.size c - 1))
        (toSegment c (a.size c + amount - 1) + 1 - toSegment c (a.size c - 1)) := by
    unfold increaseSize
    rw [if_neg (by omega), if_neg hcs, incStep1_of_gt c a _ hcs]
  obtain ⟨s_last, hs_last, hpos_last, hle_last, -⟩ :=
    WF_seg c a hWF (k := a.numSlotsUsed - c.threshold - 1) (by omega)
  have hidx : c.threshold + (a.numSlotsUsed - c.threshold - 1) = a.numSlotsUsed - 1 := by
    omega
  rw [hidx] at hs_last
  have hA2slots : ∀ j, (incStep2 c a (numSlotsForCapacity c (a.size c + amount))).slots j =
      fillFn a.slots a.numSlotsUsed (numSlotsForCapacity c (a.size c + amount))
        (some (.hv HV.empty)) j := fun j => rfl
  have hstep3 : incStep3 c (incStep2 c a (numSlotsForCapacity c (a.size c + amount)))
      (toSegment c (a.size c - 1)) (toSegment c (a.size c + amount - 1)) =
      incStep2 c a (numSlotsForCapacity c (a.size c + amount)) := by
    refine incStep3_of_seg c _ _ _ s_last ?_
    rw [hA2slots (c.threshold + toSegment c (a.size c - 1)),
      fillFn_out _ _ _ _ (Or.inl (by omega)),
      show c.threshold + toSegment c (a.size c - 1) = a.numSlotsUsed - 1 from by omega]
    exact hs_last
  have hinner : ∀ j,
      (allocSegsFrom c (incStep2 c a (numSlotsForCapacity c (a.size c + amount)))
        (toSegment c (a.size c - 1) + 1)
        (toSegment c (a.size c + amount - 1) - toSegment c (a.size c - 1))).slots j =
      if a.numSlotsUsed ≤ j ∧ j < numSlotsForCapacity c (a.size c + amount)
      then some (.seg ⟨0, fun _ => none⟩) else a.slots j := by
    intro j
    rw [allocSegsFrom_slots]
    by_cases hj : a.numSlotsUsed ≤ j ∧ j < numSlotsForCapacity c (a.size c + amount)
    · rw [if_pos (by omega), if_pos hj]
    · rw [if_neg (by omega), if_neg hj, hA2slots j, fillFn_out _ _ _ _ (by omega)]
  rw [hbody, hstep3]
  refine ⟨?_, ?_, fun j hj => ?_, ?_, fun j hj1 hj2 => ?_, fun j hj => ?_⟩
  · rw [((setSegLengths_meta c Fill (a.size c + amount)
      (toSegment c (a.size c + amount - 1))
      (toSegment c (a.size c + amount - 1) + 1 - toSegment c (a.size c - 1)))
        _ (toSegment c (a.size c - 1))).1]
    rw [((allocSegsFrom_meta c
      (toSegment c (a.size c + amount - 1) - toSegment c (a.size c - 1)))
        _ (toSegment c (a.size c - 1) + 1)).1]
    rfl
  · rw [((setSegLengths_meta c Fill (a.size c + amount)
      (toSegment c (a.size c + amount - 1))
      (toSegment c (a.size c + amount - 1) + 1 - toSegment c (a.size c - 1)))
        _ (toSegment c (a.size c - 1))).2]
    rw [((allocSegsFrom_meta c
      (toSegment c (a.size c + amount - 1) - toSegment c (a.size c - 1)))
        _ (toSegment c (a.size c - 1) + 1)).2]
    rfl
  · rw [setSegLengths_slots, if_neg (by omega), hinner j, if_neg (by omega)]
  · rw [setSegLengths_slots, if_pos (by omega), hinner (a.numSlotsUsed - 1),
      if_neg (by omega),
      show a.numSlotsUsed - 1 - c.threshold = toSegment c (a.size c - 1) from by omega]
  · rw [setSegLengths_slots, if_pos (by omega), hinner j, if_pos ⟨hj1, hj2⟩]
  · rw [setSegLengths_slots, if_neg (by omega), hinner j, if_neg (by omega)]

end SegArr

namespace SegArr

theorem atIdx_congr_inline (c : SACfg) {a b : SegmentedArray} {i : Nat} (hi : i < c.threshold)
    (h : b.slots i = a.slots i) : atIdx c b i = atIdx c a i := by
  unfold atIdx
  rw [if_pos hi, if_pos hi, h]

theorem atIdx_congr_seg (c : SACfg) {a b : SegmentedArray} {i : Nat} (hi : ¬ i < c.threshold)
    (h : b.slots (c.threshold + toSegment c i) = a.slots (c.threshold + toSegment c i)) :
    atIdx c b i = atIdx c a i := by
  unfold atIdx
  rw [if_neg hi, if_neg hi, h]

theorem atIdx_of_hv (c : SACfg) {a : SegmentedArray} {i : Nat} {v : HV} (hi : i < c.threshold)
    (h : a.slots i = some (.hv v)) : atIdx c a i = some v := by
  unfold atIdx
  rw [if_pos hi, h]

theorem atIdx_of_seg (c : SACfg) {a : SegmentedArray} {i : Nat} {s : Segment}
    (hi : ¬ i < c.threshold) (h : a.slots (c.threshold + toSegment c i) = some (.seg s)) :
    atIdx c a i = s.data (toInterior c i) := by
  unfold atIdx
  rw [if_neg hi, h]

theorem applySetLen_seg (c : SACfg) (Fill : Bool) (len : Nat) (s : Segment) :
    ∃ s', applySetLen c Fill len (some (.seg s)) = some (.seg s') ∧ s'.length = len ∧
      (∀ t, t < s.length → s'.data t = s.data t) ∧
      (Fill = true → ∀ t, s.length ≤ t → t < len → s'.data t = some HV.empty) := by
  cases Fill with
  | false =>
    exact ⟨s.setLengthWithoutFilling len, rfl, rfl, fun t _ => rfl, by intro h; cases h⟩
  | true =>
    refine ⟨s.setLength len, rfl, ?_, ?_, ?_⟩
    · unfold Segment.setLength
      by_cases h : s.length < len
      · rw [if_pos h]
      · rw [if_neg h]
    · intro t ht
      unfold Segment.setLength
      by_cases h : s.length < len
      · rw [if_pos h]
        exact fillFn_out _ _ _ _ (Or.inl ht)
      · rw [if_neg h]
    · intro _ t ht1 ht2
      unfold Segment.setLength
      rw [if_pos (by omega)]
      exact fillFn_in _ _ _ _ ht1 ht2

theorem toInterior_mono_same_seg (c : SACfg) (hL : 0 < c.segLen) {i j : Nat}
    (hi : c.threshold ≤ i) (hj : c.threshold ≤ j) (hij : i ≤ j)
    (hseg : toSegment c i = toSegment c j) : toInterior c i ≤ toInterior c j := by
  have h1 := toSeg_toInt c i hL hi
  have h2 := toSeg_toInt c j hL hj
  rw [hseg] at h1
  omega

end SegArr

namespace SegArr

theorem numSlots_final_le_slotCapacity (c : SACfg) (a : SegmentedArray) (fS : Nat)
    (hL : 0 < c.segLen) (hCap : fS ≤ a.capacity c) :
    numSlotsForCapacity c fS ≤ a.slotCapacity := by
  have h1 := numSlots_mono c hCap
  unfold SegmentedArray.capacity at h1
  rw [numSlots_capacityForSlots c _ hL] at h1
  exact h1

theorem incSize_spec_inline (c : SACfg) (Fill : Bool) (a : SegmentedArray) (amount : Nat)
    (hL : 0 < c.segLen) (hCap : a.size c + amount ≤ a.capacity c)
    (h : a.size c + amount ≤ c.threshold) :
    (increaseSize c Fill a amount).size c = a.size c + amount ∧
    WF c (increaseSize c Fill a amount) ∧
    (increaseSize c Fill a amount).slotCapacity = a.slotCapacity ∧
    (∀ i, i < a.size c → atIdx c (increaseSize c Fill a amount) i = atIdx c a i) ∧
    (Fill = true → ∀ i, a.size c ≤ i → i < a.size c + amount →
      atIdx c (increaseSize c Fill a amount) i = some HV.empty) := by
  obtain ⟨hn, hcap', hslots⟩ := incSize_inline c Fill a amount (by omega) h
  have hfits := numSlots_final_le_slotCapacity c a (a.size c + amount) hL hCap
  rw [numSlots_of_le c _ h] at hfits
  refine ⟨?_, ⟨?_, ?_⟩, hcap', fun i hi => ?_, fun hF i hi1 hi2 => ?_⟩
  · rw [size_of_le c _ (by rw [hn]; exact h)]
    exact hn
  · rw [hn, hcap']
    exact hfits
  · intro k hk
    rw [hn] at hk
    omega
  · refine atIdx_congr_inline c (by omega) ?_
    rw [hslots i, if_neg (by intro hcond; exact absurd hcond.2.1 (by omega))]
  · refine atIdx_of_hv c (by omega) ?_
    rw [hslots i, if_pos ⟨hF, hi1, hi2⟩]

theorem incSize_spec_lo (c : SACfg) (Fill : Bool) (a : SegmentedArray) (amount : Nat)
    (hL : 0 < c.segLen) (hCap : a.size c + amount ≤ a.capacity c)
    (h1 : a.size c ≤ c.threshold) (h2 : c.threshold < a.size c + amount) :
    (increaseSize c Fill a amount).size c = a.size c + amount ∧
    WF c (increaseSize c Fill a amount) ∧
    (increaseSize c Fill a amount).slotCapacity = a.slotCapacity ∧
    (∀ i, i < a.size c → atIdx c (increaseSize c Fill a amount) i = atIdx c a i) ∧
    (Fill = true → ∀ i, a.size c ≤ i → i < a.size c + amount →
      atIdx c (increaseSize c Fill a amount) i = some HV.empty) := by
  obtain ⟨hn, hcap', hpres, hfillInline, hsegSlots, -⟩ := incSize_lo c Fill a amount hL h1 h2
  have hfits := numSlots_final_le_slotCapacity c a (a.size c + amount) hL hCap
  have hN2 : numSlotsForCapacity c (a.size c + amount) =
      c.threshold + toSegment c (a.size c + amount - 1) + 1 := numSlots_of_gt c _ h2
  have hdi := toSeg_toInt c (a.size c + amount - 1) hL (by omega)
  obtain ⟨s', hs', hlen', -, -⟩ := applySetLen_seg c Fill
    (segNewLen c (a.size c + amount) (toSegment c (a.size c + amount - 1))
      (toSegment c (a.size c + amount - 1))) ⟨0, fun _ => none⟩
  have hℓ : segNewLen c (a.size c + amount) (toSegment c (a.size c + amount - 1))
      (toSegment c (a.size c + amount - 1)) = toInterior c (a.size c + amount - 1) + 1 := by
    unfold segNewLen
    rw [if_pos rfl]
  have hslotLast : (increaseSize c Fill a amount).slots
      (numSlotsForCapacity c (a.size c + amount) - 1) = some (.seg s') := by
    have h3 := hsegSlots (c.threshold + toSegment c (a.size c + amount - 1))
      (by omega) (by omega)
    rw [show c.threshold + toSegment c (a.size c + amount - 1) - c.threshold =
      toSegment c (a.size c + amount - 1) from by omega] at h3
    rw [show numSlotsForCapacity c (a.size c + amount) - 1 =
      c.threshold + toSegment c (a.size c + amount - 1) from by omega]
    rw [h3, hs']
  refine ⟨?_, ⟨?_, ?_⟩, hcap', fun i hi => ?_, fun hF i hi1 hi2 => ?_⟩
  · have hgt : c.threshold < (increaseSize c Fill a amount).numSlotsUsed := by
      rw [hn]
      omega
    have hslot2 : (increaseSize c Fill a amount).slots
        ((increaseSize c Fill a amount).numSlotsUsed - 1) = some (.seg s') := by
      rw [hn]
      exact hslotLast
    rw [size_of_gt_seg c _ s' hgt hslot2, hn, hN2, hlen', hℓ,
      show c.threshold + toSegment c (a.size c + amount - 1) + 1 - c.threshold - 1 =
        toSegment c (a.size c + amount - 1) from by omega]
    omega
  · rw [hn, hcap']
    exact hfits
  · intro k hk
    rw [hn] at hk ⊢
    obtain ⟨sk, hsk, hsklen, -, -⟩ := applySetLen_seg c Fill
      (segNewLen c (a.size c + amount) (toSegment c (a.size c + amount - 1)) k)
      ⟨0, fun _ => none⟩
    have h3 := hsegSlots (c.threshold + k) (by omega) (by omega)
    rw [show c.threshold + k - c.threshold = k from by omega] at h3
    rw [h3, hsk]
    refine (slotSegOK_iff c _ k _).mpr ⟨sk, rfl, ?_, ?_, ?_⟩
    · rw [hsklen]
      unfold segNewLen
      by_cases hk2 : k = toSegment c (a.size c + amount - 1)
      · rw [if_pos hk2]
        omega
      · rw [if_neg hk2]
        exact hL
    · rw [hsklen]
      unfold segNewLen
      by_cases hk2 : k = toSegment c (a.size c + amount - 1)
      · rw [if_pos hk2]
        have := toInterior_lt c (a.size c + amount - 1) hL
        omega
      · rw [if_neg hk2]
    · intro hcond
      rw [hsklen]
      unfold segNewLen
      rw [if_neg (by omega)]
  · refine atIdx_congr_inline c (by omega) ?_
    exact hpres i hi
  · by_cases hiT : i < c.threshold
    · exact atIdx_of_hv c hiT (hfillInline i hi1 hiT)
    · have hsegle : toSegment c i ≤ toSegment c (a.size c + amount - 1) :=
        toSegment_mono c (by omega)
      obtain ⟨si, hsi, hsilen, -, hsifill⟩ := applySetLen_seg c Fill
        (segNewLen c (a.size c + amount) (toSegment c (a.size c + amount - 1))
          (toSegment c i)) ⟨0, fun _ => none⟩
      have h3 := hsegSlots (c.threshold + toSegment c i) (by omega) (by omega)
      rw [show c.threshold + toSegment c i - c.threshold = toSegment c i from by omega] at h3
      rw [atIdx_of_seg c hiT (h3.trans hsi)]
      refine hsifill hF (toInterior c i) (Nat.zero_le _) ?_
      unfold segNewLen
      by_cases he : toSegment c i = toSegment c (a.size c + amount - 1)
      · rw [if_pos he]
        have hmono := toInterior_mono_same_seg c hL (by omega : c.threshold ≤ i)
          (by omega : c.threshold ≤ a.size c + amount - 1) (by omega) he
        omega
      · rw [if_neg he]
        exact toInterior_lt c i hL

end SegArr

namespace SegArr

theorem incSize_spec_hi (c : SACfg) (Fill : Bool) (a : SegmentedArray) (amount : Nat)
    (hL : 0 < c.segLen) (hWF : WF c a) (hCap : a.size c + amount ≤ a.capacity c)
    (h1 : c.threshold < a.size c) :
    (increaseSize c Fill a amount).size c = a.size c + amount ∧
    WF c (increaseSize c Fill a amount) ∧
    (increaseSize c Fill a amount).slotCapacity = a.slotCapacity ∧
    (∀ i, i < a.size c → atIdx c (increaseSize c Fill a amount) i = atIdx c a i) ∧
    (Fill = true → ∀ i, a.size c ≤ i → i < a.size c + amount →
      atIdx c (increaseSize c Fill a amount) i = some HV.empty) := by
  obtain ⟨hn, hcap', hpres, hlast4, hseg5, -⟩ := incSize_hi c Fill a amount hL hWF h1
  have hfits := numSlots_final_le_slotCapacity c a (a.size c + amount) hL hCap
  have hnUeq : a.numSlotsUsed = c.threshold + toSegment c (a.size c - 1) + 1 := by
    rw [WF_numSlotsUsed_eq c a hL hWF, numSlots_of_gt c _ h1]
  have hN2 : numSlotsForCapacity c (a.size c + amount) =
      c.threshold + toSegment c (a.size c + amount - 1) + 1 := numSlots_of_gt c _ (by omega)
  have hsegle : toSegment c (a.size c - 1) ≤ toSegment c (a.size c + amount - 1) :=
    toSegment_mono c (by omega)
  obtain ⟨s_last, hs_last, hpos_last, hle_last, -⟩ :=
    WF_seg c a hWF (k := a.numSlotsUsed - c.threshold - 1) (by omega)
  rw [show c.threshold + (a.numSlotsUsed - c.threshold - 1) = a.numSlotsUsed - 1 from
    by omega] at hs_last
  have hsz0 : a.size c = c.threshold +
      toSegment c (a.size c - 1) * c.segLen + s_last.length := by
    have h := size_of_gt_seg c a s_last (by omega) hs_last
    rw [show a.numSlotsUsed - c.threshold - 1 = toSegment c (a.size c - 1) from by omega] at h
    exact h
  have hdiF := toSeg_toInt c (a.size c + amount - 1) hL (by omega)
  -- the last slot of the grown array and the resulting size
  have hlastlen : ∃ s', (increaseSize c Fill a amount).slots
      (numSlotsForCapacity c (a.size c + amount) - 1) = some (.seg s') ∧
      s'.length = toInterior c (a.size c + amount - 1) + 1 := by
    by_cases heq : toSegment c (a.size c - 1) = toSegment c (a.size c + amount - 1)
    · obtain ⟨s', hs', hlen', -, -⟩ := applySetLen_seg c Fill
        (segNewLen c (a.size c + amount) (toSegment c (a.size c + amount - 1))
          (toSegment c (a.size c - 1))) s_last
      refine ⟨s', ?_, ?_⟩
      · rw [show numSlotsForCapacity c (a.size c + amount) - 1 = a.numSlotsUsed - 1 from
          by omega, hlast4, hs_last, hs']
      · rw [hlen']
        unfold segNewLen
        rw [if_pos heq]
    · obtain ⟨s', hs', hlen', -, -⟩ := applySetLen_seg c Fill
        (segNewLen c (a.size c + amount) (toSegment c (a.size c + amount - 1))
          (toSegment c (a.size c + amount - 1))) ⟨0, fun _ => none⟩
      refine ⟨s', ?_, ?_⟩
      · have h3 := hseg5 (c.threshold + toSegment c (a.size c + amount - 1))
          (by omega) (by omega)
        rw [show c.threshold + toSegment c (a.size c + amount - 1) - c.threshold =
          toSegment c (a.size c + amount - 1) from by omega] at h3
        rw [show numSlotsForCapacity c (a.size c + amount) - 1 =
          c.threshold + toSegment c (a.size c + amount - 1) from by omega, h3, hs']
      · rw [hlen']
        unfold segNewLen
        rw [if_pos rfl]
  obtain ⟨sN, hsN, hsNlen⟩ := hlastlen
  refine ⟨?_, ⟨?_, ?_⟩, hcap', fun i hi => ?_, fun hF i hi1 hi2 => ?_⟩
  · have hgt : c.threshold < (increaseSize c Fill a amount).numSlotsUsed := by
      rw [hn]
      omega
    have hslot2 : (increaseSize c Fill a amount).slots
        ((increaseSize c Fill a amount).numSlotsUsed - 1) = some (.seg sN) := by
      rw [hn]
      exact hsN
    rw [size_of_gt_seg c _ sN hgt hslot2, hn, hN2, hsNlen,
      show c.threshold + toSegment c (a.size c + amount - 1) + 1 - c.threshold - 1 =
        toSegment c (a.size c + amount - 1) from by omega]
    omega
  · rw [hn, hcap']
    exact hfits
  · intro k hk
    rw [hn] at hk ⊢
    rcases Nat.lt_trichotomy k (toSegment c (a.size c - 1)) with hk2 | hk2 | hk2
    · -- untouched old full segment
      have h3 := hpres (c.threshold + k) (by omega)
      rw [h3]
      obtain ⟨sk, hsk, hp, hl2, hfull⟩ := WF_seg c a hWF (k := k) (by omega)
      refine (slotSegOK_iff c _ k _).mpr ⟨sk, hsk, hp, hl2, fun _ => hfull (by omega)⟩
    · -- the old last segment, re-lengthened
      subst hk2
      obtain ⟨sk, hsk, hsklen, -, -⟩ := applySetLen_seg c Fill
        (segNewLen c (a.size c + amount) (toSegment c (a.size c + amount - 1))
          (toSegment c (a.size c - 1))) s_last
      rw [show c.threshold + toSegment c (a.size c - 1) = a.numSlotsUsed - 1 from by omega,
        hlast4, hs_last, hsk]
      refine (slotSegOK_iff c _ _ _).mpr ⟨sk, rfl, ?_, ?_, ?_⟩
      · rw [hsklen]
        unfold segNewLen
        by_cases he : toSegment c (a.size c - 1) = toSegment c (a.size c + amount - 1)
        · rw [if_pos he]
          omega
        · rw [if_neg he]
          exact hL
      · rw [hsklen]
        unfold segNewLen
        by_cases he : toSegment c (a.size c - 1) = toSegment c (a.size c + amount - 1)
        · rw [if_pos he]
          have := toInterior_lt c (a.size c + amount - 1) hL
          omega
        · rw [if_neg he]
      · intro hcond
        rw [hsklen]
        unfold segNewLen
        rw [if_neg (by omega)]
    · -- a freshly allocated segment
      obtain ⟨sk, hsk, hsklen, -, -⟩ := applySetLen_seg c Fill
        (segNewLen c (a.size c + amount) (toSegment c (a.size c + amount - 1)) k)
        ⟨0, fun _ => none⟩
      have h3 := hseg5 (c.threshold + k) (by omega) (by omega)
      rw [show c.threshold + k - c.threshold = k from by omega] at h3
      rw [h3, hsk]
      refine (slotSegOK_iff c _ k _).mpr ⟨sk, rfl, ?_, ?_, ?_⟩
      · rw [hsklen]
        unfold segNewLen
        by_cases hk3 : k = toSegment c (a.size c + amount - 1)
        · rw [if_pos hk3]
          omega
        · rw [if_neg hk3]
          exact hL
      · rw [hsklen]
        unfold segNewLen
        by_cases hk3 : k = toSegment c (a.size c + amount - 1)
        · rw [if_pos hk3]
          have := toInterior_lt c (a.size c + amount - 1) hL
          omega
        · rw [if_neg hk3]
      · intro hcond
        rw [hsklen]
        unfold segNewLen
        rw [if_neg (by omega)]
  · -- preservation below the old size
    by_cases hiT : i < c.threshold
    · exact atIdx_congr_inline c hiT (hpres i (by omega))
    · have hdi := toSeg_toInt c i hL (by omega)
      have hseg2 : toSegment c i ≤ toSegment c (a.size c - 1) := toSegment_mono c (by omega)
      by_cases he : toSegment c i = toSegment c (a.size c - 1)
      · -- inside the old last segment
        obtain ⟨s', hs', hlen', hdataOld, -⟩ := applySetLen_seg c Fill
          (segNewLen c (a.size c + amount) (toSegment c (a.size c + amount - 1))
            (toSegment c (a.size c - 1))) s_last
        have hslotidx : c.threshold + toSegment c i = a.numSlotsUsed - 1 := by omega
        have hsl' : (increaseSize c Fill a amount).slots (c.threshold + toSegment c i) =
            some (.seg s') := by
          rw [hslotidx, hlast4, hs_last, hs']
        rw [atIdx_of_seg c hiT hsl', atIdx_of_seg c hiT (by rw [hslotidx]; exact hs_last)]
        refine hdataOld (toInterior c i) ?_
        rw [he] at hdi
        omega
      · -- an old, untouched segment
        refine atIdx_congr_seg c hiT (hpres (c.threshold + toSegment c i) (by omega))
  · -- newly exposed range is filled with the empty sentinel
    have hiT : ¬ i < c.threshold := by omega
    have hdi := toSeg_toInt c i hL (by omega)
    have hseg2 : toSegment c (a.size c - 1) ≤ toSegment c i := toSegment_mono c (by omega)
    have hseg3 : toSegment c i ≤ toSegment c (a.size c + amount - 1) :=
      toSegment_mono c (by omega)
    by_cases he : toSegment c i = toSegment c (a.size c - 1)
    · -- the tail of the old last segment
      obtain ⟨s', hs', hlen', -, hdataFill⟩ := applySetLen_seg c Fill
        (segNewLen c (a.size c + amount) (toSegment c (a.size c + amount - 1))
          (toSegment c (a.size c - 1))) s_last
      have hslotidx : c.threshold + toSegment c i = a.numSlotsUsed - 1 := by omega
      have hsl' : (increaseSize c Fill a amount).slots (c.threshold + toSegment c i) =
          some (.seg s') := by
        rw [hslotidx, hlast4, hs_last, hs']
      rw [atIdx_of_seg c hiT hsl']
      have hdi2 := hdi
      rw [he] at hdi2
      refine hdataFill hF (toInterior c i) (by omega) ?_
      unfold segNewLen
      by_cases he2 : toSegment c (a.size c - 1) = toSegment c (a.size c + amount - 1)
      · rw [if_pos he2]
        have hmono := toInterior_mono_same_seg c hL (by omega : c.threshold ≤ i)
          (by omega : c.threshold ≤ a.size c + amount - 1) (by omega) (by omega)
        omega
      · rw [if_neg he2]
        exact toInterior_lt c i hL
    · -- a freshly allocated segment
      obtain ⟨si, hsi, hsilen, -, hsifill⟩ := applySetLen_seg c Fill
        (segNewLen c (a.size c + amount) (toSegment c (a.size c + amount - 1))
          (toSegment c i)) ⟨0, fun _ => none⟩
      have h3 := hseg5 (c.threshold + toSegment c i) (by omega) (by omega)
      rw [show c.threshold + toSegment c i - c.threshold = toSegment c i from by omega] at h3
      rw [atIdx_of_seg c hiT (h3.trans hsi)]
      refine hsifill hF (toInterior c i) (Nat.zero_le _) ?_
      unfold segNewLen
      by_cases he2 : toSegment c i = toSegment c (a.size c + amount - 1)
      · rw [if_pos he2]
        have hmono := toInterior_mono_same_seg c hL (by omega : c.threshold ≤ i)
          (by omega : c.threshold ≤ a.size c + amount - 1) (by omega) he2
        omega
      · rw [if_neg he2]
        exact toInterior_lt c i hL

end SegArr

namespace SegArr

theorem incSize_spec (c : SACfg) (Fill : Bool) (a : SegmentedArray) (amount : Nat)
    (hL : 0 < c.segLen) (hWF : WF c a) (hCap : a.size c + amount ≤ a.capacity c) :
    (increaseSize c Fill a amount).size c = a.size c + amount ∧
    WF c (increaseSize c Fill a amount) ∧
    (increaseSize c Fill a amount).slotCapacity = a.slotCapacity ∧
    (∀ i, i < a.size c → atIdx c (increaseSize c Fill a amount) i = atIdx c a i) ∧
    (Fill = true → ∀ i, a.size c ≤ i → i < a.size c + amount →
      atIdx c (increaseSize c Fill a amount) i = some HV.empty) := by
  by_cases h : a.size c + amount ≤ c.threshold
  · exact incSize_spec_inline c Fill a amount hL hCap h
  · by_cases h2 : a.size c ≤ c.threshold
    · exact incSize_spec_lo c Fill a amount hL hCap h2 (by omega)
    · exact incSize_spec_hi c Fill a amount hL hWF hCap (by omega)

theorem WF_of_checks (c : SACfg) (a : SegmentedArray)
    (h : a.numSlotsUsed ≤ a.slotCapacity ∧ ∀ k, k < a.numSlotsUsed - c.threshold →
      slotSegOK c a.numSlotsUsed k (a.slots (c.threshold + k)) = true) : WF c a := h

/-- C1 (amended): every grow-with-fill, which all route through
`increaseSize<true>` — here its public face `growRightWithinCapacity`, used
by `growRight`, `resize`, `resizeWithinCapacity` and `push_back` — leaves
every newly exposed element slot in `[oldSize, oldSize + amount)` holding
the empty sentinel, preserves the elements below `oldSize`, sets the size to
`oldSize + amount` and keeps the array well formed (the tracer never visits
a slot at an index `≥ size`).  Shrink operations, by contrast, do NOT
re-fill the abandoned slots in `[size, slotCapacity)` (see the
counterexample), so the claimed invariant over the whole of
`[size, slotCapacity)` holds only for the tracer-visible region. -/
theorem growRightWithinCapacity_spec (c : SACfg) (a : SegmentedArray) (amount : Nat)
    (hL : 0 < c.segLen) (hWF : WF c a)
    (hCap : a.size c + amount ≤ a.capacity c) :
    (∀ i, a.size c ≤ i → i < a.size c + amount →
      atIdx c (growRightWithinCapacity c a amount) i = some HV.empty) ∧
    (growRightWithinCapacity c a amount).size c = a.size c + amount ∧
    (∀ i, i < a.size c → atIdx c (growRightWithinCapacity c a amount) i = atIdx c a i) ∧
    WF c (growRightWithinCapacity c a amount) := by
  obtain ⟨h1, h2, h3, h4, h5⟩ := incSize_spec c true a amount hL hWF hCap
  exact ⟨h5 rfl, h1, h4, h2⟩

/-- Witness for the amended C1 at a concrete array: size 1, capacity 5,
grown by 2 slots within capacity. -/
theorem growRightWithinCapacity_spec_witness :
    atIdx cfg2 (growRightWithinCapacity cfg2 exOne 2) 1 = some HV.empty ∧
    atIdx cfg2 (growRightWithinCapacity cfg2 exOne 2) 2 = some HV.empty ∧
    (growRightWithinCapacity cfg2 exOne 2).size cfg2 = 3 ∧
    atIdx cfg2 (growRightWithinCapacity cfg2 exOne 2) 0 = atIdx cfg2 exOne 0 := by
  obtain ⟨hf, hs, hp, -⟩ :=
    growRightWithinCapacity_spec cfg2 exOne 2 (by decide)
      (WF_of_checks cfg2 exOne (by decide)) (by decide)
  exact ⟨hf 1 (by decide) (by decide), hf 2 (by decide) (by decide),
    hs.trans (by decide), hp 0 (by decide)⟩

/-- C7: after a successful `growLeft(amount)`, indices `0..amount-1` read
the empty sentinel, indices `[amount, amount + oldSize)` hold the
pre-growth contents in order, and the final size is `oldSize + amount` —
on both the within-capacity path (shift up, fill the prefix) and the
reallocation path (fresh array, fill prefix, copy across). -/
theorem growLeft_spec (c : SACfg) (a : SegmentedArray) (amount : Nat)
    (a' : SegmentedArray) (b : Bool) (hL : 0 < c.segLen) (hWF : WF c a)
    (h : growLeft c a amount = .ok (a', b)) :
    (∀ i, i < amount → atIdx c a' i = some HV.empty) ∧
    (∀ j, j < a.size c → atIdx c a' (amount + j) = atIdx c a j) ∧
    a'.size c = a.size c + amount := by
  unfold growLeft at h
  by_cases hc : a.size c + amount < a.capacity c
  · rw [if_pos hc] at h
    simp only [Except.ok.injEq, Prod.mk.injEq] at h
    obtain ⟨h1, -⟩ := h
    subst h1
    obtain ⟨hsz1, hWF1, -, hpres1, -⟩ :=
      incSize_spec c false a amount hL hWF (le_of_lt hc)
    unfold growLeftWithinCapacity
    have hn : (increaseSize c false a amount).size c - amount = a.size c := by
      rw [hsz1]
      omega
    rw [hn]
    obtain ⟨hcb1, hcb2, hcb3, -, -, hcb6, -⟩ :=
      copyBackwardSame_spec c hL amount (a.size c) (increaseSize c false a amount)
        (fun k hk => allocated_of_lt_size c _ hL hWF1 (by omega))
    obtain ⟨hf1, hf2, hf3, -, -, -, -⟩ :=
      fillElems_spec c hL amount
        (copyBackwardSame c amount (increaseSize c false a amount) (a.size c)) 0
        (fun k hk1 hk2 => hcb6 k (allocated_of_lt_size c _ hL hWF1 (by omega)))
    refine ⟨fun i hi => ?_, fun j hj => ?_, ?_⟩
    · exact hf1 i (by omega) (by omega)
    · rw [hf2 (amount + j) (by omega), hcb1 j hj]
      exact hpres1 j hj
    · rw [hf3, hcb3, hsz1]
  · rw [if_neg hc] at h
    rcases hcr : create c (calculateNewCapacity (a.size c) (a.size c + amount)) with e | newArr <;>
      rw [hcr] at h
    · simp at h
    · simp only [Except.ok.injEq, Prod.mk.injEq] at h
      obtain ⟨h1, -⟩ := h
      subst h1
      have hnewArr : newArr =
          { slotCapacity := numSlotsForCapacity c
              (calculateNewCapacity (a.size c) (a.size c + amount)),
            numSlotsUsed := 0,
            slots := fun _ => some (.hv HV.empty) } := by
        unfold create at hcr
        split at hcr
        · exact absurd hcr (by simp)
        · simp only [Except.ok.injEq] at hcr
          exact hcr.symm
      have hWFnew : WF c newArr := by
        rw [hnewArr]
        constructor
        · exact Nat.zero_le _
        · intro k hk
          exact absurd hk (by simp)
      have hsz_new : newArr.size c = 0 := by
        rw [hnewArr]
        unfold SegmentedArray.size
        rw [if_pos (Nat.zero_le _)]
      have hcap_new : a.size c + amount ≤ newArr.capacity c := by
        rw [hnewArr]
        show a.size c + amount ≤ capacityForSlots c (numSlotsForCapacity c
          (calculateNewCapacity (a.size c) (a.size c + amount)))
        have hge := capacityForSlots_numSlots_ge c
          (calculateNewCapacity (a.size c) (a.size c + amount)) hL
        have hmin : a.size c + amount ≤ calculateNewCapacity (a.size c) (a.size c + amount) := by
          unfold calculateNewCapacity
          exact le_max_right _ _
        omega
      obtain ⟨hsz1, hWF1, -, -, -⟩ :=
        incSize_spec c false newArr (a.size c + amount) hL hWFnew
          (by rw [hsz_new, Nat.zero_add]; exact hcap_new)
      have hszA1 : (increaseSize c false newArr (a.size c + amount)).size c =
          a.size c + amount := by
        rw [hsz1, hsz_new, Nat.zero_add]
      obtain ⟨hf1, hf2, hf3, -, -, hf6, hf7⟩ :=
        fillElems_spec c hL amount (increaseSize c false newArr (a.size c + amount)) 0
          (fun k hk1 hk2 => allocated_of_lt_size c _ hL hWF1 (by omega))
      obtain ⟨hca1, hca2, hca3, -, -, -, -⟩ :=
        copyAcross_spec c hL a (a.size c)
          (fillElems c (increaseSize c false newArr (a.size c + amount)) 0 amount) 0 amount
          (fun k hk => hf6 (amount + k) (allocated_of_lt_size c _ hL hWF1 (by omega)))
      refine ⟨fun i hi => ?_, fun j hj => ?_, ?_⟩
      · rw [hca2 i (by omega)]
        exact hf1 i (by omega) (by omega)
      · rw [hca1 j hj, Nat.zero_add]
      · rw [hca3, hf3, hszA1]

end SegArr

namespace SegArr

/-- Witness for C7 at a concrete array (size 1, capacity 5, value 5 at
index 0) grown left by 1. -/
theorem growLeft_spec_witness :
    atIdx cfg2 (getOkP (growLeft cfg2 exOne 1)) 0 = some HV.empty ∧
    atIdx cfg2 (getOkP (growLeft cfg2 exOne 1)) 1 = atIdx cfg2 exOne 0 ∧
    (getOkP (growLeft cfg2 exOne 1)).size cfg2 = 2 := by
  obtain ⟨h1, h2, h3⟩ := growLeft_spec cfg2 exOne 1 (getOkP (growLeft cfg2 exOne 1)) false
    (by decide) (WF_of_checks cfg2 exOne (by decide)) rfl
  refine ⟨h1 0 (by decide), ?_, h3.trans (by decide)⟩
  have h := h2 0 (by decide)
  simpa using h

theorem writeElem_eq (c : SACfg) (a : SegmentedArray) (i : Nat) (v : HV) :
    writeElem c a i v = writeElemOpt c a i (some v) := rfl

theorem size_congr (c : SACfg) {x y : SegmentedArray} (hn : x.numSlotsUsed = y.numSlotsUsed)
    (hs : c.threshold < y.numSlotsUsed →
      x.slots (y.numSlotsUsed - 1) = y.slots (y.numSlotsUsed - 1)) :
    x.size c = y.size c := by
  unfold SegmentedArray.size
  rw [hn]
  by_cases hT : y.numSlotsUsed ≤ c.threshold
  · rw [if_pos hT, if_pos hT]
  · rw [if_neg hT, if_neg hT, hs (by omega)]

theorem calculateNewCapacity_facts (s : Nat) :
    s + 1 ≤ calculateNewCapacity s (s + 1) ∧ 2 * s ≤ calculateNewCapacity s (s + 1) ∧
      calculateNewCapacity s (s + 1) ≤ 2 * s + 1 := by
  unfold calculateNewCapacity
  omega

theorem pushRun_inv (c : SACfg) (hL : 0 < c.segLen) :
    ∀ N a cost, pushRun c N = some (a, cost) →
      WF c a ∧ a.size c = N ∧ cost ≤ 2 * a.capacity c ∧ a.capacity c ≤ 2 * N + c.segLen := by
  intro N
  induction N with
  | zero =>
    intro a cost h
    rw [show pushRun c 0 =
      some (⟨numSlotsForCapacity c 0, 0, fun _ => some (.hv HV.empty)⟩, 0) from rfl] at h
    simp only [Option.some.injEq, Prod.mk.injEq] at h
    obtain ⟨rfl, rfl⟩ := h
    have hns : numSlotsForCapacity c 0 = 0 := numSlots_of_le c 0 (Nat.zero_le _)
    refine ⟨⟨?_, ?_⟩, ?_, ?_, ?_⟩
    · show (0 : Nat) ≤ numSlotsForCapacity c 0
      omega
    · intro k hk
      exact absurd hk (by simp)
    · rw [size_of_le c _ (Nat.zero_le _)]
    · omega
    · show capacityForSlots c (numSlotsForCapacity c 0) ≤ 2 * 0 + c.segLen
      rw [hns]
      unfold capacityForSlots
      rw [if_pos (Nat.zero_le _)]
      omega
  | succ N ih =>
    intro a cost h
    unfold pushRun at h
    rcases hp : pushRun c N with - | ⟨aN, costN⟩ <;> rw [hp] at h
    · simp at h
    · simp only [] at h
      obtain ⟨hWFN, hszN, hcostN, hcapN⟩ := ih aN costN hp
      have hsize_le_cap : aN.size c ≤ aN.capacity c := size_le_capacity c aN hL hWFN
      rcases hg : growRight c aN 1 with e | ⟨a1, realloc⟩ <;> rw [hg] at h
      · simp at h
      · simp only [Option.some.injEq, Prod.mk.injEq] at h
        obtain ⟨ha, hcost⟩ := h
        unfold growRight at hg
        by_cases hcap1 : aN.size c + 1 ≤ aN.capacity c
        · -- within-capacity push
          rw [if_pos hcap1] at hg
          simp only [Except.ok.injEq, Prod.mk.injEq] at hg
          obtain ⟨hga, hgb⟩ := hg
          subst hga
          subst hgb
          subst ha
          subst hcost
          obtain ⟨hsz1, hWF1, hslotCap1, -, -⟩ := incSize_spec c true aN 1 hL hWFN hcap1
          have hcapEq : (growRightWithinCapacity c aN 1).capacity c = aN.capacity c := by
            unfold SegmentedArray.capacity
            rw [show (growRightWithinCapacity c aN 1).slotCapacity = aN.slotCapacity from
              hslotCap1]
          rw [writeElem_eq]
          have hcapW : (writeElemOpt c (growRightWithinCapacity c aN 1) (aN.size c)
              (some (HV.val N))).capacity c = aN.capacity c := by
            unfold SegmentedArray.capacity
            rw [writeElemOpt_slotCapacity]
            exact hcapEq
          refine ⟨WF_writeElemOpt c _ _ _ hWF1, ?_, ?_, ?_⟩
          · rw [writeElemOpt_size]
            rw [show (growRightWithinCapacity c aN 1).size c = aN.size c + 1 from hsz1, hszN]
          · rw [hcapW]
            have hite : (if (false = true) then aN.numSlotsUsed else 0) = 0 := rfl
            rw [hite]
            omega
          · rw [hcapW]
            omega
        · -- reallocation push
          rw [if_neg hcap1] at hg
          rcases hcr : create c (calculateNewCapacity (aN.size c) (aN.size c + 1))
            with e | newArr <;> rw [hcr] at hg
          · simp at hg
          · simp only [Except.ok.injEq, Prod.mk.injEq] at hg
            obtain ⟨hga, hgb⟩ := hg
            have hnewArr : newArr =
                { slotCapacity := numSlotsForCapacity c
                    (calculateNewCapacity (aN.size c) (aN.size c + 1)),
                  numSlotsUsed := 0,
                  slots := fun _ => some (.hv HV.empty) } := by
              unfold create at hcr
              split at hcr
              · exact absurd hcr (by simp)
              · simp only [Except.ok.injEq] at hcr
                exact hcr.symm
            obtain ⟨hreq1, hreq2, hreq3⟩ := calculateNewCapacity_facts (aN.size c)
            have hnUN : aN.numSlotsUsed = numSlotsForCapacity c (aN.size c) :=
              WF_numSlotsUsed_eq c aN hL hWFN
            have hnU_le : aN.numSlotsUsed ≤ aN.size c := by
              rw [hnUN]
              exact numSlots_le_self c _
            have hmodSize : ({ newArr with
                slots := fun i => if i < aN.numSlotsUsed then aN.slots i else newArr.slots i,
                numSlotsUsed := aN.numSlotsUsed } : SegmentedArray).size c = aN.size c := by
              refine size_congr c rfl ?_
              intro hT
              show (if aN.numSlotsUsed - 1 < aN.numSlotsUsed then aN.slots (aN.numSlotsUsed - 1)
                else newArr.slots (aN.numSlotsUsed - 1)) = aN.slots (aN.numSlotsUsed - 1)
              rw [if_pos (by omega)]
            have hmodWF : WF c ({ newArr with
                slots := fun i => if i < aN.numSlotsUsed then aN.slots i else newArr.slots i,
                numSlotsUsed := aN.numSlotsUsed } : SegmentedArray) := by
              constructor
              · show aN.numSlotsUsed ≤ newArr.slotCapacity
                rw [hnewArr, hnUN]
                exact (numSlots_mono c (by omega)).trans le_rfl
              · intro k hk
                replace hk : k < aN.numSlotsUsed - c.threshold := hk
                show slotSegOK c aN.numSlotsUsed k
                  (if c.threshold + k < aN.numSlotsUsed then aN.slots (c.threshold + k)
                    else newArr.slots (c.threshold + k)) = true
                rw [if_pos (by omega)]
                exact hWFN.2 k hk
            have hmodCap : ({ newArr with
                slots := fun i => if i < aN.numSlotsUsed then aN.slots i else newArr.slots i,
                numSlotsUsed := aN.numSlotsUsed } : SegmentedArray).capacity c =
                capacityForSlots c (numSlotsForCapacity c
                  (calculateNewCapacity (aN.size c) (aN.size c + 1))) := by
              unfold SegmentedArray.capacity
              rw [hnewArr]
            have hcap_ge := capacityForSlots_numSlots_ge c
              (calculateNewCapacity (aN.size c) (aN.size c + 1)) hL
            have hcap_le := capacityForSlots_numSlots_le c
              (calculateNewCapacity (aN.size c) (aN.size c + 1)) hL
            obtain ⟨hsz1, hWF1, hslotCap1, -, -⟩ := incSize_spec c true _ 1 hL hmodWF
              (by rw [hmodSize, hmodCap]; omega)
            subst hga
            subst hgb
            subst ha
            subst hcost
            rw [writeElem_eq]
            have hcapW : (writeElemOpt c (increaseSize c true ({ newArr with
                slots := fun i => if i < aN.numSlotsUsed then aN.slots i else newArr.slots i,
                numSlotsUsed := aN.numSlotsUsed } : SegmentedArray) 1) (aN.size c)
                (some (HV.val N))).capacity c =
                capacityForSlots c (numSlotsForCapacity c
                  (calculateNewCapacity (aN.size c) (aN.size c + 1))) := by
              unfold SegmentedArray.capacity
              rw [writeElemOpt_slotCapacity,
                show (increaseSize c true _ 1).slotCapacity = _ from hslotCap1]
              rw [show ({ newArr with
                slots := fun i => if i < aN.numSlotsUsed then aN.slots i else newArr.slots i,
                numSlotsUsed := aN.numSlotsUsed } : SegmentedArray).slotCapacity =
                  newArr.slotCapacity from rfl, hnewArr]
            refine ⟨WF_writeElemOpt c _ _ _ hWF1, ?_, ?_, ?_⟩
            · rw [writeElemOpt_size, show (increaseSize c true _ 1).size c = _ from hsz1,
                hmodSize, hszN]
            · rw [hcapW]
              have hite : (if (true = true) then aN.numSlotsUsed else 0) = aN.numSlotsUsed :=
                rfl
              rw [hite]
              omega
            · rw [hcapW]
              omega

end SegArr

namespace SegArr

/-- C9: For all sequences of N `push_back` operations starting from a
SegmentedArray created with capacity 0, the total element-copy work across
all reallocations (each reallocating `growRight` copies the array's used
slots into the newly created replacement array) is linear in N — bounded by
`4 * N + 2 * segLen`, not quadratic — and the capacity-growth policy
`calculateNewCapacity` is monotone in both the old logical size and the new
(requested) logical size. -/
theorem push_back_amortized (c : SACfg) (hL : 0 < c.segLen) :
    (∀ N a cost, pushRun c N = some (a, cost) → cost ≤ 4 * N + 2 * c.segLen) ∧
    (∀ s m m', m ≤ m' → calculateNewCapacity s m ≤ calculateNewCapacity s m') ∧
    (∀ s s' m, s ≤ s' → calculateNewCapacity s m ≤ calculateNewCapacity s' m) := by
  refine ⟨?_, ?_, ?_⟩
  · intro N a cost h
    obtain ⟨-, -, hcost, hcap⟩ := pushRun_inv c hL N a cost h
    omega
  · intro s m m' hm
    unfold calculateNewCapacity
    omega
  · intro s s' m hs
    unfold calculateNewCapacity
    omega

/-- Witness for C9: the amortized bound applied at a concrete configuration
(threshold 2, segment length 3) for a run of 5 pushes, whose accumulated
copy cost is 3 ≤ 4*5 + 2*3, together with a concrete monotonicity instance
of the growth policy. -/
theorem push_back_amortized_witness :
    (0 < cfg2.segLen ∧
      (getSomeP (dfltArr, 0) (pushRun cfg2 5)).2 ≤ 4 * 5 + 2 * cfg2.segLen) ∧
    (3 ≤ 4 ∧ calculateNewCapacity 2 3 ≤ calculateNewCapacity 2 4) := by
  have hmain := push_back_amortized cfg2 (by decide)
  refine ⟨⟨by decide, ?_⟩, by decide, hmain.2.1 2 3 4 (by decide)⟩
  exact hmain.1 5 (getSomeP (dfltArr, 0) (pushRun cfg2 5)).1
    (getSomeP (dfltArr, 0) (pushRun cfg2 5)).2 rfl

end SegArr
